import Mathlib

set_option maxRecDepth 8000

namespace Pulse

/-! Shallow embedding of the Pulse data-uploading pipeline
    (cds_parser.py, fk_resolver.py, validator.py, transformer.py,
    staging_engine.py, append_writer.py, policy.py, dedup_config.py).
    Python cell values are modelled by `Value`; dict-shaped rows by
    association lists; file contents are passed in as parameters where the
    Python code performs I/O. -/

/-- A Python cell value as it appears in an Excel/CSV row: None, a string,
    an int, or a bool.  (Floats never reach the control paths studied here;
    parsed decimals are carried by their source text.) -/
inductive Value where
  | vNone
  | vStr (s : String)
  | vInt (n : Int)
  | vBool (b : Bool)
  | vFloat (src : String)
deriving DecidableEq, Repr

/-- Python `str(value)`. -/
def Value.toStr : Value → String
  | .vNone => "None"
  | .vStr s => s
  | .vInt n => toString n
  | .vBool true => "True"
  | .vBool false => "False"
  | .vFloat src => src

/-- Python truthiness of a cell value. -/
def Value.truthy : Value → Bool
  | .vNone => false
  | .vStr s => s != ""
  | .vInt n => n != 0
  | .vBool b => b
  | .vFloat src => src != "0.0"

/-! String helpers mirroring the Python string methods used by the source.
    They are written by structural recursion over the character list so that
    every definition evaluates inside the kernel. -/

/-- The whitespace set of Python `str.strip()`. -/
def wsChar (c : Char) : Bool :=
  c == ' ' || c == Char.ofNat 9 || c == Char.ofNat 10 || c == Char.ofNat 13 ||
    c == Char.ofNat 11 || c == Char.ofNat 12

/-- Python `s.strip()`. -/
def pyStrip (s : String) : String :=
  ⟨((s.toList.dropWhile fun c => wsChar c).reverse.dropWhile fun c => wsChar c).reverse⟩

/-- Python `s.upper()` (ASCII, which is all the source compares). -/
def pyUpper (s : String) : String := ⟨s.toList.map Char.toUpper⟩

/-- Python `s.lower()`. -/
def pyLower (s : String) : String := ⟨s.toList.map Char.toLower⟩

/-- Python `s.startswith(pre)`. -/
def pyStartsWith (s pre : String) : Bool := pre.toList.isPrefixOf s.toList

/-- Python `s.endswith(suf)`. -/
def pyEndsWith (s suf : String) : Bool := suf.toList.isSuffixOf s.toList

/-- Splitter for `s.split(sep)` with a one-character separator. -/
def splitChAux (sep : Char) : List Char → List Char → List String
  | [], acc => [⟨acc.reverse⟩]
  | c :: cs, acc =>
      if c == sep then ⟨acc.reverse⟩ :: splitChAux sep cs []
      else splitChAux sep cs (c :: acc)

/-- Python `s.split(sep)` for a one-character separator. -/
def pySplitCh (s : String) (sep : Char) : List String := splitChAux sep s.toList []

/-- Base-10 value of a digit list. -/
def charsToNat (l : List Char) : Nat :=
  l.foldl (fun n c => n * 10 + (c.toNat - 48)) 0

/-- The ubiquitous blank test `value is None or str(value).strip() == ''`. -/
def isBlank (v : Value) : Bool :=
  v == Value.vNone || pyStrip v.toStr == ""

/-- A Python dict row of cell values (keys in insertion order). -/
abbrev Row := List (String × Value)

/-- A Python dict row of strings, as produced by `csv.DictReader`. -/
abbrev SRow := List (String × String)

/-- Python `row.get(k)` on a `Value` row: `None`-as-absent is `none`. -/
def rget (r : Row) (k : String) : Option Value :=
  (r.find? (fun p => p.1 == k)).map (·.2)

/-- Python `row.get(k)` on a string row. -/
def sget (r : SRow) (k : String) : Option String :=
  (r.find? (fun p => p.1 == k)).map (·.2)

/-- Python dict assignment `d[k] = v`: overwrite in place, else append. -/
def dictInsert (d : List (String × String)) (k v : String) : List (String × String) :=
  if (d.find? (fun p => p.1 == k)).isSome then
    d.map (fun p => if p.1 == k then (k, v) else p)
  else
    d ++ [(k, v)]

/-- Python dict assignment for rows of optional strings (FK resolutions). -/
def dictInsertO (d : List (String × Option String)) (k : String) (v : Option String) :
    List (String × Option String) :=
  if (d.find? (fun p => p.1 == k)).isSome then
    d.map (fun p => if p.1 == k then (k, v) else p)
  else
    d ++ [(k, v)]

/-- Python substring test `needle in hay`. -/
def strContains (hay needle : String) : Bool :=
  decide (needle.toList <:+: hay.toList)

/-- A single-quote character, used to reproduce the quoting in the source
    error strings. -/
def q1 : String := String.singleton (Char.ofNat 39)

/-! ### policy.py

The module defines `get_duplicate_policy` twice; module execution makes the
second definition the effective one. -/

/-- `_ENTITY_POLICIES` of policy.py (consulted only by the first, shadowed
    definition of `get_duplicate_policy`). -/
def ENTITY_POLICIES : List (String × String) :=
  [("SERVICEORDERS", "skip")]

/-- The first definition of `get_duplicate_policy` in policy.py: it upcases
    the entity and defaults to "error".  It is shadowed by the later
    definition in the same module and is never the module attribute that
    importers receive. -/
def get_duplicate_policy_shadowed (entity : String) : String :=
  (((ENTITY_POLICIES.find? (fun p => p.1 == pyUpper entity)).map (·.2))).getD "error"

/-- `DUPLICATE_POLICY` dict of policy.py. -/
def DUPLICATE_POLICY : List (String × String) :=
  [ ("CLUSTERS", "skip"), ("LOCATIONS", "skip"), ("SPVS", "skip"),
    ("PROJECTS", "skip"), ("PACKAGES", "skip"), ("PROJECTDEFINITIONS", "skip"),
    ("VENDORS", "skip"), ("SERVICEORDERS", "skip") ]

/-- The second definition of `get_duplicate_policy` in policy.py; being the
    last binding of the name at module level, it is the effective one. -/
def get_duplicate_policy (entity : String) : String :=
  (((DUPLICATE_POLICY.find? (fun p => p.1 == entity)).map (·.2))).getD "skip"

/-! ### dedup_config.py -/

/-- `DEDUP_ENTITIES` of dedup_config.py: master-data entities and their
    natural-key field lists. -/
def DEDUP_ENTITIES : List (String × List String) :=
  [ ("CLUSTERS", ["NAME"]), ("SPVS", ["NAME"]),
    ("PROJECTS", ["NAME", "TYPE", "CATEGORY"]), ("LOCATIONS", ["NAME"]),
    ("PLOTS", ["NAME"]), ("VENDORS", ["CODE"]),
    ("PROJECTDEFINITIONS", ["CODE"]), ("PACKAGES", ["NAME"]) ]

/-- `should_deduplicate` of dedup_config.py. -/
def should_deduplicate (entity : String) : Bool :=
  (DEDUP_ENTITIES.find? (fun p => p.1 == entity)).isSome

/-- `get_dedup_keys` of dedup_config.py. -/
def get_dedup_keys (entity : String) : List String :=
  (((DEDUP_ENTITIES.find? (fun p => p.1 == entity)).map (·.2))).getD []

/-! ### validator.py -/

/-- Hexadecimal digit, case-insensitive (the regex uses `re.I`). -/
def isHexDig (c : Char) : Bool :=
  c.isDigit || "abcdefABCDEF".toList.contains c

/-- The canonical 8-4-4-4-12 UUID shape checked by `validate_type`. -/
def isUuidFormat (s : String) : Bool :=
  match pySplitCh s '-' with
  | [a, b, c, d, e] =>
      a.toList.length == 8 && b.toList.length == 4 && c.toList.length == 4 &&
      d.toList.length == 4 && e.toList.length == 12 &&
      (a ++ b ++ c ++ d ++ e).toList.all isHexDig
  | _ => false

/-- Python `int(s)` on a trimmed string (base 10, optional sign). -/
def pyParseInt (s : String) : Option Int :=
  match s.toList with
  | [] => none
  | c :: cs =>
      let core := if c == '-' || c == '+' then cs else c :: cs
      if !core.isEmpty && core.all Char.isDigit then
        some (if c == '-' then -(charsToNat core : Int) else (charsToNat core : Int))
      else none

/-- Python `float(s)` syntactic acceptance (digits, optional sign, one dot). -/
def pyParseFloatOk (s : String) : Bool :=
  let core :=
    match s.toList with
    | [] => []
    | c :: cs => if c == '-' || c == '+' then cs else c :: cs
  match splitChAux '.' core [] with
  | [a] => !a.toList.isEmpty && a.toList.all Char.isDigit
  | [a, b] => (!a.toList.isEmpty || !b.toList.isEmpty) && a.toList.all Char.isDigit &&
      b.toList.all Char.isDigit
  | _ => false

/-- All-digit string of an exact length. -/
def digitsLen (s : String) (n : Nat) : Bool :=
  s.toList.length == n && s.toList.all Char.isDigit

/-- Date part acceptance for the timestamp fallbacks of `validate_type`:
    `YYYY-MM-DD`, `YYYY-MM-DD HH:MM:SS`, `DD/MM/YYYY` (with the basic range
    checks `strptime` performs). -/
def parseTimestamp (s : String) : Option String :=
  let natOf := fun (x : String) => charsToNat x.toList
  match pySplitCh s '-' with
  | [y, m, rest] =>
      match pySplitCh rest ' ' with
      | [d] =>
          if digitsLen y 4 && digitsLen m 2 && digitsLen d 2 &&
              decide (1 ≤ natOf m ∧ natOf m ≤ 12) &&
              decide (1 ≤ natOf d ∧ natOf d ≤ 31) then
            some (y ++ "-" ++ m ++ "-" ++ d ++ "T00:00:00")
          else none
      | [d, t] =>
          if digitsLen y 4 && digitsLen m 2 && digitsLen d 2 &&
              decide (1 ≤ natOf m ∧ natOf m ≤ 12) &&
              decide (1 ≤ natOf d ∧ natOf d ≤ 31) &&
              (match pySplitCh t ':' with
               | [hh, mm, ss] => digitsLen hh 2 && digitsLen mm 2 && digitsLen ss 2 &&
                   decide (natOf hh ≤ 23 ∧ natOf mm ≤ 59 ∧ natOf ss ≤ 59)
               | _ => false) then
            some (y ++ "-" ++ m ++ "-" ++ d ++ "T" ++ t)
          else none
      | _ => none
  | _ =>
      match pySplitCh s '/' with
      | [d, m, y] =>
          if digitsLen d 2 && digitsLen m 2 && digitsLen y 4 &&
              decide (1 ≤ natOf m ∧ natOf m ≤ 12) &&
              decide (1 ≤ natOf d ∧ natOf d ≤ 31) then
            some (y ++ "-" ++ m ++ "-" ++ d ++ "T00:00:00")
          else none
      | _ => none

/-- `DataValidator.validate_type` of validator.py: coerce and validate one
    field value.  Returns the coerced value and an optional error string,
    mirroring the `(coerced, error)` tuple convention of the source. -/
def validate_type (field_name : String) (value : Value) (field_type : String) :
    Value × Option String :=
  if isBlank value then (Value.vNone, none)
  else
    let tu := pyUpper field_type
    if pyStartsWith tu "UUID" then
      let sv := pyStrip value.toStr
      if isUuidFormat sv then (Value.vStr sv, none)
      else (Value.vStr sv, some ("Invalid UUID format for " ++ field_name))
    else if strContains tu "STRING" then
      (Value.vStr (pyStrip value.toStr), none)
    else if tu == "INTEGER" || tu == "INTEGER64" then
      match value with
      | Value.vInt n => (Value.vInt n, none)
      | Value.vBool b => (Value.vInt (if b then 1 else 0), none)
      | Value.vFloat _ => (value, none)
      | _ =>
          match pyParseInt (pyStrip value.toStr) with
          | some n => (Value.vInt n, none)
          | none => (Value.vNone, some ("Type coercion failed for " ++ field_name))
    else if strContains tu "DECIMAL" || strContains tu "FLOAT" then
      match value with
      | Value.vInt n => (Value.vFloat (toString n), none)
      | Value.vBool b => (Value.vFloat (if b then "1" else "0"), none)
      | Value.vFloat src => (Value.vFloat src, none)
      | _ =>
          if pyParseFloatOk (pyStrip value.toStr) then
            (Value.vFloat (pyStrip value.toStr), none)
          else (Value.vNone, some ("Type coercion failed for " ++ field_name))
    else if strContains tu "BOOLEAN" then
      match value with
      | Value.vBool b => (Value.vBool b, none)
      | _ =>
          let sv := pyLower (pyStrip value.toStr)
          if ["true", "1", "yes", "t", "y"].contains sv then (Value.vBool true, none)
          else if ["false", "0", "no", "f", "n", ""].contains sv then
            (Value.vBool false, none)
          else
            (Value.vNone,
             some ("Invalid boolean value " ++ q1 ++ value.toStr ++ q1 ++ " for " ++
               field_name))
    else if strContains tu "TIMESTAMP" then
      let sv := pyStrip value.toStr
      match parseTimestamp sv with
      | some iso => (Value.vStr iso, none)
      | none =>
          (Value.vStr sv,
           some ("Cannot parse timestamp " ++ q1 ++ value.toStr ++ q1 ++ " for " ++
             field_name))
    else
      (Value.vStr (pyStrip value.toStr), none)

/-! ### fk_resolver.py

`FKResolver._load_entity_data` reads CSV files; the loaded row list (data
rows first, then staged rows) is passed in here as a parameter, and the
per-entity loader of `resolve_all_fks` as a `String → List SRow` function. -/

/-- One `{field: ..., from: ...}` match-rule dict of a lookup definition.
    `dict.get` may yield `None`, hence the `Option`s. -/
structure MatchField where
  field : Option String
  fromCol : Option String
deriving DecidableEq, Repr

/-- Truthiness of a `dict.get` result (`None` and `''` are falsy). -/
def truthyOptStr : Option String → Bool
  | none => false
  | some s => s != ""

/-- The guard cluster of one iteration of the criteria loop of
    `FKResolver.lookup_id`: the rule contributes `(field, str(v).strip())`
    exactly when `field` and `from` are truthy and the source column holds a
    non-blank value. -/
def criterionOf (row_values : Row) (mf : MatchField) : Option (String × String) :=
  if truthyOptStr mf.field && truthyOptStr mf.fromCol then
    match rget row_values (mf.fromCol.getD "") with
    | some v =>
        if v != Value.vNone && pyStrip v.toStr != "" then
          some (mf.field.getD "", pyStrip v.toStr)
        else none
    | none => none
  else none

/-- The criteria dict built at the top of `FKResolver.lookup_id`: each rule
    contributing a criterion assigns `criteria[field] = str(v).strip()`. -/
def buildCriteria (match_fields : List MatchField) (row_values : Row) :
    List (String × String) :=
  match_fields.foldl
    (fun criteria mf =>
      match criterionOf row_values mf with
      | some kv => dictInsert criteria kv.1 kv.2
      | none => criteria)
    []

/-- One criterion test of the `lookup_id` search loop: `_ID` fields with a
    non-empty stored value compare exactly, all else case-insensitively. -/
def criterionHolds (csv_row : SRow) (fv : String × String) : Bool :=
  let csv_value := pyStrip ((sget csv_row fv.1).getD "")
  if pyEndsWith fv.1 "_ID" && csv_value != "" then csv_value == fv.2
  else pyUpper csv_value == pyUpper fv.2

/-- The inner `match` test of `lookup_id` over a candidate row. -/
def rowMatches (criteria : List (String × String)) (csv_row : SRow) : Bool :=
  criteria.all (criterionHolds csv_row)

/-- `FKResolver.lookup_id`: natural-key lookup of a surrogate ID in the
    loaded rows of the target entity.  Returns the `ID` column of the first
    row matching every criterion, `none` when the data is empty, the criteria
    are empty, or nothing matches. -/
def lookup_id (data : List SRow) (match_fields : List MatchField) (row_values : Row) :
    Option String :=
  if data.isEmpty then none
  else
    let criteria := buildCriteria match_fields row_values
    if criteria.isEmpty then none
    else
      match data.find? (rowMatches criteria) with
      | some csv_row => sget csv_row "ID"
      | none => none

/-- One `lookups_config` entry (`mapping.yaml` lookup definition). -/
structure LookupDef where
  entity : Option String
  matchFields : List MatchField
  optionalFlag : Bool
deriving DecidableEq, Repr

/-- One iteration of the `resolve_all_fks` loop: skip entries without a
    truthy target entity; pass a truthy own-column value through stripped;
    otherwise assign the natural-key lookup result. -/
def resolveStep (loadData : String → List SRow) (excel_row : Row)
    (resolved : List (String × Option String)) (entry : String × LookupDef) :
    List (String × Option String) :=
  let fk_field := entry.1
  let lookup_def := entry.2
  if truthyOptStr lookup_def.entity then
    let target_entity := lookup_def.entity.getD ""
    match rget excel_row fk_field with
    | some v =>
        if v.truthy then dictInsertO resolved fk_field (some (pyStrip v.toStr))
        else
          dictInsertO resolved fk_field
            (lookup_id (loadData target_entity) lookup_def.matchFields excel_row)
    | none =>
        dictInsertO resolved fk_field
          (lookup_id (loadData target_entity) lookup_def.matchFields excel_row)
  else resolved

/-- `FKResolver.resolve_all_fks`: for each configured FK field, pass the
    row's own (truthy) value through stripped, otherwise perform the
    natural-key lookup against the rows loaded for the target entity. -/
def resolve_all_fks (loadData : String → List SRow)
    (lookups_config : List (String × LookupDef)) (excel_row : Row) :
    List (String × Option String) :=
  lookups_config.foldl (resolveStep loadData excel_row) []

/-! ### cds_parser.py: build_dependencies -/

/-- A parsed CDS field descriptor. -/
structure FieldD where
  name : String
  type : String
  key : Bool
deriving DecidableEq, Repr

/-- A parsed CDS association descriptor. -/
structure AssocD where
  name : String
  target : String
deriving DecidableEq, Repr

/-- A parsed CDS entity (the parts `build_dependencies` reads). -/
structure EntityDef where
  fields : List FieldD
  associations : List AssocD
deriving DecidableEq, Repr

/-- One iteration of the association half of the target-collection loop of
    `build_dependencies`: add a truthy, non-self association target not yet
    collected. -/
def assocStep (ename : String) (targets : List String) (assoc : AssocD) : List String :=
  if assoc.target != "" && assoc.target != ename && !(targets.contains assoc.target)
  then targets ++ [assoc.target]
  else targets

/-- The association half of the target-collection loop of
    `build_dependencies`. -/
def assocTargets (ename : String) (edef : EntityDef) : List String :=
  edef.associations.foldl (assocStep ename) []

/-- One iteration of the `*_ID` heuristic half of `build_dependencies`: for
    a field named `<X>_ID` of a `UUID`-prefixed type, look for an
    association named `<X>` and add its target when truthy, non-self and not
    yet collected. -/
def idHeuristicStep (ename : String) (assocs : List AssocD) (targets : List String)
    (f : FieldD) : List String :=
  if pyEndsWith f.name "_ID" && pyStartsWith (pyUpper f.type) "UUID" then
    let base : String := ⟨f.name.toList.take (f.name.toList.length - 3)⟩
    match assocs.find? (fun a => a.name == base) with
    | some a =>
        if a.target != "" then
          if a.target != ename && !(targets.contains a.target) then
            targets ++ [a.target]
          else targets
        else targets
    | none => targets
  else targets

/-- The `*_ID` heuristic half of `build_dependencies`. -/
def idHeuristicTargets (ename : String) (edef : EntityDef) (start : List String) :
    List String :=
  edef.fields.foldl (idHeuristicStep ename edef.associations) start

/-- `build_dependencies` of cds_parser.py: the dependency map from parsed
    entities (association targets, then the `*_ID` heuristic). -/
def build_dependencies (parsed : List (String × EntityDef)) :
    List (String × List String) :=
  parsed.map (fun p => (p.1, idHeuristicTargets p.1 p.2 (assocTargets p.1 p.2)))

/-! ### append_writer.py -/

/-- A CSV file: its header row and its data rows (raw cell lists). -/
structure Csv where
  header : List String
  rows : List (List String)
deriving DecidableEq, Repr

/-- `csv.DictReader` pairing of a data row with a header (extra cells are
    unreachable through header keys; short rows read back as blanks). -/
def rowDict (header : List String) (cells : List String) : SRow :=
  header.zip cells

/-- `row.get(h, '')` of the append loop (a `None` restval is written back as
    an empty cell by `csv.DictWriter`). -/
def outCell (staged_header : List String) (cells : List String) (h : String) : String :=
  (sget (rowDict staged_header cells) h).getD ""

/-- The appended projection of one staged row onto the existing header. -/
def projectRow (existing_header staged_header : List String) (cells : List String) :
    List String :=
  existing_header.map (outCell staged_header cells)

/-- Result record of `AppendOnlyWriter.append_entity`.  The backup is
    modelled by the copied contents. -/
structure AppendResult where
  entity : String
  appended : Nat
  backup : Option Csv
  error : Option String
deriving DecidableEq, Repr

/-- `AppendOnlyWriter.append_entity` of append_writer.py.

    File-system inputs are passed as parameters: `target` is the contents of
    the target CSV (`none` when the file does not exist) and `staged` the
    staged CSV (the claims here assume it exists).  `failAfter = some k`
    injects an exception inside the `try` block after `k` staged rows have
    been written; `none` is the exception-free run.  Returns the result
    record and the final contents of the target file.  The backup copy taken
    before mutation is restored over the target whenever the injected
    exception fires and a backup exists. -/
def append_entity (entity : String) (target : Option Csv) (staged : Csv)
    (failAfter : Option Nat) : AppendResult × Option Csv :=
  let backup : Option Csv := target
  let rows_to_append := staged.rows.length
  let written : Option Csv :=
    match target with
    | some t =>
        match failAfter with
        | none =>
            some { header := t.header,
                   rows := t.rows ++ staged.rows.map (projectRow t.header staged.header) }
        | some k =>
            some { header := t.header,
                   rows := t.rows ++
                     (staged.rows.take k).map (projectRow t.header staged.header) }
    | none =>
        match failAfter with
        | none =>
            some { header := staged.header,
                   rows := staged.rows.map (projectRow staged.header staged.header) }
        | some k =>
            some { header := staged.header,
                   rows := (staged.rows.take k).map
                     (projectRow staged.header staged.header) }
  match failAfter with
  | none =>
      ({ entity := entity, appended := rows_to_append, backup := backup,
         error := none }, written)
  | some _ =>
      let restored := match backup with
        | some b => some b
        | none => written
      ({ entity := entity, appended := 0, backup := backup,
         error := some "Failed to append" }, restored)

/-! ### transformer.py: transform_entity

`RowTransformer.transform_row` orchestrates mapping, FK resolution and
validation for one row; `transform_entity` wraps it with the master-data
deduplication overlay and the duplicate policy.  The per-row transformation
is passed in as the function `rowXform` (the `(output-or-None, errors)`
convention of the source); existing CSV rows are passed in as `Value` rows
whose cells are the strings read from disk. -/

/-- A `{row_num, excel_row, errors}` validation error record. -/
structure ErrorRecord where
  row_num : Nat
  excel_row : Row
  errors : List String
deriving DecidableEq, Repr

/-- The natural-key tuple of a transformed (or persisted) row:
    `str(row.get(k, '')).strip().upper()` over the dedup key fields. -/
def storeKey (keys : List String) (r : Row) : List String :=
  keys.map (fun k => pyUpper (pyStrip ((rget r k).getD (Value.vStr "")).toStr))

/-- `str(excel_row[excel_col] or '')`. -/
def pyOrBlank (v : Value) : String :=
  if v.truthy then v.toStr else ""

/-- The pre-transform batch key of a source row: each dedup key field is
    mapped back to its first source column in `columnMap`, and the value is
    lower-cased after trimming; absent columns contribute `''`. -/
def batchKey (columnMap : List (String × String)) (keys : List String) (excel_row : Row) :
    List String :=
  keys.map (fun key_field =>
    match columnMap.find? (fun p => p.2 == key_field) with
    | some pair =>
        if pair.1 != "" then
          match rget excel_row pair.1 with
          | some v => pyLower (pyStrip (pyOrBlank v))
          | none => ""
        else ""
    | none => "")

/-- The existing-store key set built before the loop of `transform_entity`
    for master entities. -/
def buildExistingKeySet (entity : String) (existing_rows : List Row) :
    List (List String) :=
  existing_rows.map (storeKey (get_dedup_keys entity))

/-- Loop state of `transform_entity`. -/
structure TEState where
  all_rows : List Row
  existing_key_set : List (List String)
  seen_keys : List (List String)
  valid_rows : List Row
  error_records : List ErrorRecord
deriving Repr

/-- The body of the `transform_entity` loop after the pre-transform dedup
    checks: run the row transform, then the store-duplicate overlay and the
    duplicate-policy overlay. -/
def teBody (rowXform : Row → List Row → Option Row × List String) (entity : String)
    (st : TEState) (idx : Nat) (excel_row : Row) : TEState :=
  let res := rowXform excel_row st.all_rows
  let transformedTruthy : Bool :=
    match res.1 with
    | some r => !r.isEmpty
    | none => false
  if transformedTruthy then
    let transformed := res.1.getD []
    if should_deduplicate entity then
      let key_tuple := storeKey (get_dedup_keys entity) transformed
      if st.existing_key_set.contains key_tuple then st
      else
        { st with existing_key_set := st.existing_key_set ++ [key_tuple],
                  valid_rows := st.valid_rows ++ [transformed],
                  all_rows := st.all_rows ++ [transformed] }
    else
      { st with valid_rows := st.valid_rows ++ [transformed],
                all_rows := st.all_rows ++ [transformed] }
  else
    let errors := res.2
    if should_deduplicate entity &&
        errors.any (fun e => strContains e "Unique constraint" && strContains e "violated")
    then st
    else if get_duplicate_policy entity == "skip" &&
        errors.all (fun e => strContains e "Unique constraint") then
      { st with error_records := st.error_records ++
          [{ row_num := idx, excel_row := excel_row,
             errors := ["Skipped due to duplicate (unique constraint)"] }] }
    else
      { st with error_records := st.error_records ++
          [{ row_num := idx, excel_row := excel_row, errors := errors }] }

/-- One iteration of the `transform_entity` loop (1-based `idx`), including
    the master-data pre-transform dedup checks. -/
def teStep (rowXform : Row → List Row → Option Row × List String) (entity : String)
    (columnMap : List (String × String)) (st : TEState) (idx : Nat) (excel_row : Row) :
    TEState :=
  if should_deduplicate entity then
    let key_tuple := batchKey columnMap (get_dedup_keys entity) excel_row
    if key_tuple.all (fun v => v == "") then st
    else if st.seen_keys.contains key_tuple then st
    else
      teBody rowXform entity
        { st with seen_keys := st.seen_keys ++ [key_tuple] } idx excel_row
  else teBody rowXform entity st idx excel_row

/-- Fold of `teStep` over the enumerated source rows. -/
def teLoop (rowXform : Row → List Row → Option Row × List String) (entity : String)
    (columnMap : List (String × String)) (st : TEState) (idx : Nat)
    (excel_rows : List Row) : TEState :=
  match excel_rows with
  | [] => st
  | r :: rest =>
      teLoop rowXform entity columnMap (teStep rowXform entity columnMap st idx r)
        (idx + 1) rest

/-- `RowTransformer.transform_entity` of transformer.py: returns
    `(valid_rows, error_records)`.  `csvConfigured = false` models a missing
    `csv.file` entry in the schema (early `[], []` return); `existing_rows`
    is the content `_load_existing_csv` read from the target file. -/
def transform_entity (rowXform : Row → List Row → Option Row × List String)
    (entity : String) (columnMap : List (String × String)) (csvConfigured : Bool)
    (existing_rows : List Row) (excel_rows : List Row) :
    List Row × List ErrorRecord :=
  if !csvConfigured then ([], [])
  else
    let existing_key_set :=
      if should_deduplicate entity then buildExistingKeySet entity existing_rows else []
    let final := teLoop rowXform entity columnMap
      { all_rows := existing_rows, existing_key_set := existing_key_set,
        seen_keys := [], valid_rows := [], error_records := [] } 1 excel_rows
    (final.valid_rows, final.error_records)

/-! ### staging_engine.py: stage_all

`stage_entity` performs file and workbook I/O; its per-pass result for an
entity is passed in as the oracle `stage : pass → entity → EntityResult`.
`stage_all` runs pass 1 over the configured entities in ingestion order and
then the bounded retry loop over entities with foreign-key errors. -/

/-- The per-entity result dict of `StagingEngine.stage_entity` (the fields
    the `stage_all` loop reads). -/
structure EntityResult where
  valid_count : Nat
  error_count : Nat
  errors : List ErrorRecord
deriving DecidableEq, Repr

/-- Per-entity results dict, in insertion order. -/
abbrev Results := List (String × EntityResult)

/-- Python `results[entity] = result`. -/
def resInsert (results : Results) (e : String) (r : EntityResult) : Results :=
  if (results.find? (fun p => p.1 == e)).isSome then
    results.map (fun p => if p.1 == e then (e, r) else p)
  else results ++ [(e, r)]

/-- The FK-error test of the retry loop: a positive error count and some
    error record containing the substring `Could not resolve FK`. -/
def hasFkError (r : EntityResult) : Bool :=
  decide (0 < r.error_count) &&
    r.errors.any (fun er => er.errors.any (fun e => strContains e "Could not resolve FK"))

/-- `entities_with_fk_errors`, in results-dict order. -/
def fkEntities (results : Results) : List String :=
  (results.filter (fun p => hasFkError p.2)).map (·.1)

/-- `sum(results[e]['error_count'] for e in es)`. -/
def totalErrors (results : Results) (es : List String) : Nat :=
  (es.map (fun e =>
    (((results.find? (fun p => p.1 == e)).map (fun p => p.2.error_count))).getD 0)).sum

/-- Why the multi-pass loop stopped. -/
inductive StopReason where
  | converged
  | noImprovement
  | exhausted
deriving DecidableEq, Repr

/-- Output of `stage_all`: the final results, the total number of staging
    passes executed, the stop reason, and the per-pass history of the
    results dict (head entry is the pass-1 state). -/
structure StageAllOut where
  results : Results
  passes : Nat
  reason : StopReason
  hist : List Results
deriving Repr

/-- One retry pass: re-stage exactly the listed entities. -/
def runPass (stage : Nat → String → EntityResult) (passNum : Nat) (results : Results)
    (es : List String) : Results :=
  es.foldl (fun acc e => resInsert acc e (stage passNum e)) results

/-- The `while pass_num <= max_passes` loop of `stage_all` (`max_passes`
    is 5).  `fuel` only forces structural termination; the authoritative
    guard is the `passNum ≤ 5` test, and `stage_all` supplies enough fuel
    for the guard always to be reached. -/
def stage_all_loop (stage : Nat → String → EntityResult) (fuel : Nat)
    (results : Results) (passNum passesDone : Nat) (hist : List Results) :
    StageAllOut :=
  match fuel with
  | 0 => { results := results, passes := passesDone, reason := .exhausted, hist := hist }
  | fuel + 1 =>
      if passNum ≤ 5 then
        let es := fkEntities results
        if es.isEmpty then
          { results := results, passes := passesDone, reason := .converged, hist := hist }
        else
          let total_errors_before := totalErrors results es
          let results2 := runPass stage passNum results es
          let total_errors_after := totalErrors results2 es
          if total_errors_before ≤ total_errors_after then
            { results := results2, passes := passesDone + 1, reason := .noImprovement,
              hist := hist ++ [results2] }
          else
            stage_all_loop stage fuel results2 (passNum + 1) (passesDone + 1)
              (hist ++ [results2])
      else
        { results := results, passes := passesDone, reason := .exhausted, hist := hist }

/-- `StagingEngine.stage_all`: pass 1 over the configured entities in
    ingestion order, then the bounded FK-retry loop starting at pass 2. -/
def stage_all (stage : Nat → String → EntityResult) (ingestion_order : List String)
    (configured : List String) : StageAllOut :=
  let pass1 := (ingestion_order.filter (fun e => configured.contains e)).foldl
    (fun acc e => resInsert acc e (stage 1 e)) []
  stage_all_loop stage 6 pass1 2 1 [pass1]

/-! ### cds_parser.py: topo_sort -/

/-- `deps.get(n)`-style access (`[]` when `n` is not a key, matching the
    empty incoming set the algorithm builds for pure targets). -/
def depsGet (deps : List (String × List String)) (n : String) : List String :=
  (((deps.find? (fun p => p.1 == n)).map (·.2))).getD []

/-- Set insertion on a duplicate-free list representation. -/
def insertSet (l : List String) (x : String) : List String :=
  if l.contains x then l else l ++ [x]

/-- Python `set.remove` modelled on lists (membership-exact). -/
def removeElem (l : List String) (x : String) : List String :=
  l.filter (fun y => y != x)

/-- `nodes = set(deps.keys()) | {d for v in deps.values() for d in v}`,
    as a canonical duplicate-free list. -/
def topoNodes (deps : List (String × List String)) : List String :=
  ((deps.map (·.1)) ++ deps.flatMap (·.2)).foldl insertSet []

/-- Pointwise update of a map-as-function. -/
def updateF (f : String → List String) (k : String) (g : List String → List String) :
    String → List String :=
  fun n => if n == k then g (f k) else f n

/-- The `incoming` dict of `topo_sort`: `incoming[n]` collects `deps[n]`. -/
def buildIncoming (deps : List (String × List String)) : String → List String :=
  deps.foldl
    (fun inc p => p.2.foldl (fun inc v => updateF inc p.1 (fun l => insertSet l v)) inc)
    (fun _ => [])

/-- The `outgoing` dict of `topo_sort`: `outgoing[v]` collects the keys `n`
    with `v ∈ deps[n]`.  (The source also drains `outgoing[n]` while
    emitting `n`; as each node is emitted at most once and `outgoing[n]` is
    read only then, the static map is observationally identical.) -/
def buildOutgoing (deps : List (String × List String)) : String → List String :=
  deps.foldl
    (fun out p => p.2.foldl (fun out v => updateF out v (fun l => insertSet l p.1)) out)
    (fun _ => [])

/-- Lexicographic comparison of character lists by code point, the string
    order Python sorts by. -/
def charsLe : List Char → List Char → Bool
  | [], _ => true
  | _ :: _, [] => false
  | a :: as, b :: bs =>
      if a.toNat < b.toNat then true
      else if b.toNat < a.toNat then false
      else charsLe as bs

/-- The Python string order, as a decidable relation. -/
def strLe (a b : String) : Prop := charsLe a.toList b.toList = true

instance : DecidableRel strLe := fun _ _ => instDecidableEqBool _ _

theorem charsLe_total (as bs : List Char) : charsLe as bs = true ∨ charsLe bs as = true := by
  induction as generalizing bs with
  | nil => exact Or.inl rfl
  | cons a as ih =>
      cases bs with
      | nil => exact Or.inr rfl
      | cons b bs =>
          rcases Nat.lt_trichotomy a.toNat b.toNat with hlt | heq | hgt
          · exact Or.inl (by simp [charsLe, hlt])
          · rcases ih bs with h | h
            · exact Or.inl (by simp [charsLe, heq, h])
            · exact Or.inr (by simp [charsLe, heq.symm, h])
          · exact Or.inr (by simp [charsLe, hgt])

theorem charsLe_trans {as bs cs : List Char} (h1 : charsLe as bs = true)
    (h2 : charsLe bs cs = true) : charsLe as cs = true := by
  induction as generalizing bs cs with
  | nil => rfl
  | cons a as ih =>
      cases bs with
      | nil => simp [charsLe] at h1
      | cons b bs =>
          cases cs with
          | nil => simp [charsLe] at h2
          | cons c cs =>
              by_cases hab : a.toNat < b.toNat
              · by_cases hbc : b.toNat < c.toNat
                · simp [charsLe, Nat.lt_trans hab hbc]
                · by_cases hcb : c.toNat < b.toNat
                  · simp [charsLe, hbc, hcb] at h2
                  · have hbc2 : b.toNat = c.toNat := Nat.le_antisymm
                      (Nat.le_of_not_lt hcb) (Nat.le_of_not_lt hbc)
                    simp [charsLe, hbc2 ▸ hab]
              · by_cases hba : b.toNat < a.toNat
                · simp [charsLe, hab, hba] at h1
                · have hab2 : a.toNat = b.toNat := Nat.le_antisymm
                    (Nat.le_of_not_lt hba) (Nat.le_of_not_lt hab)
                  simp only [charsLe, hab, if_neg hba, if_false] at h1
                  by_cases hbc : b.toNat < c.toNat
                  · simp [charsLe, hab2 ▸ hbc]
                  · by_cases hcb : c.toNat < b.toNat
                    · simp [charsLe, hbc, hcb] at h2
                    · simp only [charsLe, hbc, if_neg hcb, if_false] at h2
                      have hrec := ih (by simpa using h1) (by simpa using h2)
                      have hac : ¬ a.toNat < c.toNat := by omega
                      have hca : ¬ c.toNat < a.toNat := by omega
                      simp [charsLe, hac, hca, hrec]

theorem charsLe_antisymm {as bs : List Char} (h1 : charsLe as bs = true)
    (h2 : charsLe bs as = true) : as = bs := by
  induction as generalizing bs with
  | nil =>
      cases bs with
      | nil => rfl
      | cons b bs => simp [charsLe] at h2
  | cons a as ih =>
      cases bs with
      | nil => simp [charsLe] at h1
      | cons b bs =>
          by_cases hab : a.toNat < b.toNat
          · simp [charsLe, hab, Nat.lt_asymm hab] at h2
          · by_cases hba : b.toNat < a.toNat
            · simp [charsLe, hab, hba] at h1
            · have heq : a.toNat = b.toNat := Nat.le_antisymm
                (Nat.le_of_not_lt hba) (Nat.le_of_not_lt hab)
              have hc : a = b := Char.eq_of_val_eq (UInt32.eq_of_val_eq (Fin.ext heq))
              simp only [charsLe, hab, if_neg hba, if_false] at h1 h2
              have := ih (by simpa using h1) (by simpa using h2)
              rw [hc, this]

instance : IsTotal String strLe := ⟨fun a b => charsLe_total a.toList b.toList⟩

instance : IsTrans String strLe := ⟨fun _ _ _ => charsLe_trans⟩

instance : IsAntisymm String strLe :=
  ⟨fun a b h1 h2 => by
    cases a; cases b
    simpa using congrArg String.mk (charsLe_antisymm h1 h2)⟩

/-- Python `list.sort()` on strings (ascending lexical code-point order). -/
def sortStr (l : List String) : List String :=
  l.insertionSort strLe

/-- One relaxation of the edge `n → m` when `n` is emitted: remove `n` from
    `incoming[m]`, appending `m` to the ready queue (and re-sorting it, as
    the source does) when its incoming set empties. -/
def relaxStep (n : String) (st : (String → List String) × List String) (m : String) :
    (String → List String) × List String :=
  let inc2 := updateF st.1 m (fun l => removeElem l n)
  if (inc2 m).isEmpty then (inc2, sortStr (st.2 ++ [m])) else (inc2, st.2)

/-- The edge-relaxation loop run when `n` is emitted, over `outgoing[n]`. -/
def kahnRelax (outgoing : String → List String) (n : String)
    (st : (String → List String) × List String) :
    (String → List String) × List String :=
  (outgoing n).foldl (relaxStep n) st

/-- The `while S` loop of `topo_sort`: pop the least ready node, emit it,
    relax its outgoing edges.  `fuel` forces structural termination;
    `topo_sort` supplies `nodes.length`, which the emptiness of `S` bounds. -/
def kahnLoop (outgoing : String → List String) :
    Nat → (String → List String) → List String → List String → List String
  | 0, _, _, order => order
  | fuel + 1, incoming, S, order =>
      match S with
      | [] => order
      | n :: S' =>
          let st := kahnRelax outgoing n (incoming, S')
          kahnLoop outgoing fuel st.1 st.2 (order ++ [n])

/-- The Kahn phase of `topo_sort`: the order of all nodes resolved before
    the cycle fallback. -/
def kahnOrder (deps : List (String × List String)) : List String :=
  let nodes := topoNodes deps
  let incoming := buildIncoming deps
  let S := sortStr (nodes.filter (fun n => (incoming n).isEmpty))
  kahnLoop (buildOutgoing deps) nodes.length incoming S []

/-- `topo_sort` of cds_parser.py: the Kahn phase followed by the remaining
    (cycle-blocked) nodes in sorted order. -/
def topo_sort (deps : List (String × List String)) : List String :=
  let nodes := topoNodes deps
  let order := kahnOrder deps
  order ++ sortStr (nodes.filter (fun n => !(order.contains n)))

/-- Reference order, modelled from the spec wording for `topoSort`: at each
    step emit the lexically least node not yet emitted all of whose
    dependencies are emitted. -/
def readyNodes (deps : List (String × List String)) (nodes order : List String) :
    List String :=
  sortStr (nodes.filter (fun n =>
    !(order.contains n) && (depsGet deps n).all (fun b => order.contains b)))

/-- The greedy reference loop: repeatedly emit the least ready node. -/
def refLoop (deps : List (String × List String)) (nodes : List String) :
    Nat → List String → List String
  | 0, order => order
  | fuel + 1, order =>
      match readyNodes deps nodes order with
      | [] => order
      | c :: _ => refLoop deps nodes fuel (order ++ [c])

/-- Reference topological order, modelled from the spec wording: the greedy
    least-ready order, then the unresolved nodes sorted lexically. -/
def topoSortSpec (deps : List (String × List String)) : List String :=
  let nodes := topoNodes deps
  let kord := refLoop deps nodes nodes.length []
  kord ++ sortStr (nodes.filter (fun n => !(kord.contains n)))

/-- Bounded reachability along dependency edges. -/
def reachesIn (deps : List (String × List String)) :
    Nat → String → String → Bool
  | 0, _, _ => false
  | k + 1, x, y =>
      (depsGet deps x).contains y ||
        (depsGet deps x).any (fun z => reachesIn deps k z y)

/-- `x` transitively depends on `y`. -/
def reaches (deps : List (String × List String)) (x y : String) : Bool :=
  reachesIn deps (topoNodes deps).length x y

/-! ## Theorems -/

/-- List membership from a `contains` test. -/
theorem mem_of_contains_eq_true {l : List String} {a : String}
    (h : l.contains a = true) : a ∈ l :=
  List.mem_of_elem_eq_true h

/-- `contains` test from non-membership. -/
theorem contains_eq_false_of_not_mem {l : List String} {a : String} (h : a ∉ l) :
    l.contains a = false := by
  cases hc : l.contains a
  · rfl
  · exact absurd (List.mem_of_elem_eq_true hc) h

/-- C10: for every entity name not listed in DUPLICATE_POLICY (including
    entirely unknown names), the effective `get_duplicate_policy` — the
    second definition of the name in policy.py, which shadows the first —
    returns "skip", not "error". -/
theorem get_duplicate_policy_default_skip (e : String)
    (h : e ∉ DUPLICATE_POLICY.map Prod.fst) :
    get_duplicate_policy e = "skip" ∧ get_duplicate_policy e ≠ "error" := by
  have hfind : DUPLICATE_POLICY.find? (fun p => p.1 == e) = none := by
    apply List.find?_eq_none.mpr
    intro p hp
    simp only [beq_iff_eq]
    intro hpe
    exact h (hpe ▸ List.mem_map_of_mem Prod.fst hp)
  refine ⟨?_, ?_⟩
  · simp [get_duplicate_policy, hfind]
  · simp [get_duplicate_policy, hfind]

/-- Witness for C10 at the concrete unknown entity name "UNITSCOPE". -/
theorem get_duplicate_policy_default_skip_witness :
    get_duplicate_policy "UNITSCOPE" = "skip" ∧
      get_duplicate_policy "UNITSCOPE" ≠ "error" :=
  get_duplicate_policy_default_skip "UNITSCOPE" (by decide)

/-- C9 counterexample: the empty string is blank, so boolean coercion
    returns an explicit null with no error — not `false` as the claim's
    vocabulary `{false,0,no,f,n,""}` asserts; the `''` entry of the source
    vocabulary is unreachable behind the blank guard. -/
theorem validate_type_empty_string_is_null :
    validate_type "FLAG" (Value.vStr "") "Boolean" = (Value.vNone, none) ∧
      (Value.vNone, (none : Option String)) ≠ (Value.vBool false, none) := by
  constructor
  · decide
  · decide

/-- The true-vocabulary entries belong to the combined boolean vocabulary. -/
theorem true_vocab_mem_full {s : String}
    (h : s ∈ (["true", "1", "yes", "t", "y"] : List String)) :
    s ∈ (["true", "1", "yes", "t", "y", "false", "0", "no", "f", "n"] : List String) := by
  fin_cases h <;> decide

/-- The false-vocabulary entries belong to the combined boolean vocabulary. -/
theorem false_vocab_mem_full {s : String}
    (h : s ∈ (["false", "0", "no", "f", "n"] : List String)) :
    s ∈ (["true", "1", "yes", "t", "y", "false", "0", "no", "f", "n"] : List String) := by
  fin_cases h <;> decide

/-- The false vocabulary is disjoint from the true vocabulary. -/
theorem false_vocab_not_true_vocab {s : String}
    (h : s ∈ (["false", "0", "no", "f", "n"] : List String)) :
    s ∉ (["true", "1", "yes", "t", "y"] : List String) := by
  fin_cases h <;> decide

/-- A non-blank value's lower-cased stripped string form is non-empty. -/
theorem pyLower_pyStrip_ne_empty {v : Value} (h : isBlank v = false) :
    pyLower (pyStrip v.toStr) ≠ "" := by
  intro hx
  have hlen : (pyStrip v.toStr).toList.length = 0 := by
    have hc := congrArg (fun q : String => q.toList.length) hx
    simpa [pyLower] using hc
  have hempty : pyStrip v.toStr = "" := by
    cases hs : pyStrip v.toStr with
    | mk l =>
        rw [hs] at hlen
        simp only [String.toList] at hlen
        have : l = [] := List.length_eq_zero.mp hlen
        simp [this]
  simp [isBlank, hempty] at h

/-- C9 (amended): blank or absent input of any declared type coerces to an
    explicit null with no error; for non-blank input of a Boolean field the
    vocabulary {true,1,yes,t,y} maps to true and {false,0,no,f,n} maps to
    false case-insensitively, and any other non-blank value yields an error;
    the `""` entry of the source's false vocabulary is unreachable, because
    the blank guard already mapped the empty string to null. -/
theorem validate_type_boolean_correct (f t : String) (v : Value) :
    (isBlank v = true → validate_type f v t = (Value.vNone, none)) ∧
    (isBlank v = false →
      pyLower (pyStrip v.toStr) ∈ (["true", "1", "yes", "t", "y"] : List String) →
      validate_type f v "Boolean" = (Value.vBool true, none)) ∧
    (isBlank v = false →
      pyLower (pyStrip v.toStr) ∈ (["false", "0", "no", "f", "n"] : List String) →
      validate_type f v "Boolean" = (Value.vBool false, none)) ∧
    (isBlank v = false →
      pyLower (pyStrip v.toStr) ∉
        (["true", "1", "yes", "t", "y", "false", "0", "no", "f", "n"] : List String) →
      validate_type f v "Boolean" =
        (Value.vNone,
         some ("Invalid boolean value " ++ q1 ++ v.toStr ++ q1 ++ " for " ++ f))) := by
  refine ⟨?_, ?_, ?_, ?_⟩
  · intro h
    simp [validate_type, h]
  · intro h hmem
    rcases (by simpa using hmem :
        pyLower (pyStrip v.toStr) = "true" ∨ pyLower (pyStrip v.toStr) = "1" ∨
        pyLower (pyStrip v.toStr) = "yes" ∨ pyLower (pyStrip v.toStr) = "t" ∨
        pyLower (pyStrip v.toStr) = "y") with hy | hy | hy | hy | hy <;>
      cases v <;>
      first
        | (simp [isBlank] at h; done)
        | exact absurd hy (by decide)
        | (simp +decide [validate_type, h, hy]; done)
        | (rename_i b; cases b <;>
            first
              | exact absurd hy (by decide)
              | (simp +decide [validate_type, h]; done))
  · intro h hmem
    rcases (by simpa using hmem :
        pyLower (pyStrip v.toStr) = "false" ∨ pyLower (pyStrip v.toStr) = "0" ∨
        pyLower (pyStrip v.toStr) = "no" ∨ pyLower (pyStrip v.toStr) = "f" ∨
        pyLower (pyStrip v.toStr) = "n") with hy | hy | hy | hy | hy <;>
      cases v <;>
      first
        | (simp [isBlank] at h; done)
        | exact absurd hy (by decide)
        | (simp +decide [validate_type, h, hy]; done)
        | (rename_i b; cases b <;>
            first
              | exact absurd hy (by decide)
              | (simp +decide [validate_type, h]; done))
  · intro h hmem
    have hne : pyLower (pyStrip v.toStr) ≠ "" := pyLower_pyStrip_ne_empty h
    have h1 : pyLower (pyStrip v.toStr) ≠ "true" := fun hx => hmem (by rw [hx]; decide)
    have h2 : pyLower (pyStrip v.toStr) ≠ "1" := fun hx => hmem (by rw [hx]; decide)
    have h3 : pyLower (pyStrip v.toStr) ≠ "yes" := fun hx => hmem (by rw [hx]; decide)
    have h4 : pyLower (pyStrip v.toStr) ≠ "t" := fun hx => hmem (by rw [hx]; decide)
    have h5 : pyLower (pyStrip v.toStr) ≠ "y" := fun hx => hmem (by rw [hx]; decide)
    have h6 : pyLower (pyStrip v.toStr) ≠ "false" := fun hx => hmem (by rw [hx]; decide)
    have h7 : pyLower (pyStrip v.toStr) ≠ "0" := fun hx => hmem (by rw [hx]; decide)
    have h8 : pyLower (pyStrip v.toStr) ≠ "no" := fun hx => hmem (by rw [hx]; decide)
    have h9 : pyLower (pyStrip v.toStr) ≠ "f" := fun hx => hmem (by rw [hx]; decide)
    have h10 : pyLower (pyStrip v.toStr) ≠ "n" := fun hx => hmem (by rw [hx]; decide)
    cases v with
    | vNone => simp [isBlank] at h
    | vStr s => simp +decide [validate_type, h, h1, h2, h3, h4, h5, h6, h7, h8, h9, h10, hne]
    | vInt n => simp +decide [validate_type, h, h1, h2, h3, h4, h5, h6, h7, h8, h9, h10, hne]
    | vFloat src =>
        simp +decide [validate_type, h, h1, h2, h3, h4, h5, h6, h7, h8, h9, h10, hne]
    | vBool b =>
        cases b with
        | true => exact absurd (by decide) h1
        | false => exact absurd (by decide) h6

/-- Witness for C9: the blank rule at a Timestamp field and the boolean
    vocabulary at the concrete inputs "Yes", "n" and "maybe". -/
theorem validate_type_boolean_correct_witness :
    validate_type "F" Value.vNone "Timestamp" = (Value.vNone, none) ∧
    validate_type "F" (Value.vStr "Yes") "Boolean" = (Value.vBool true, none) ∧
    validate_type "F" (Value.vStr " n ") "Boolean" = (Value.vBool false, none) ∧
    validate_type "F" (Value.vStr "maybe") "Boolean" =
      (Value.vNone, some ("Invalid boolean value " ++ q1 ++ "maybe" ++ q1 ++ " for " ++ "F")) :=
  ⟨(validate_type_boolean_correct "F" "Timestamp" Value.vNone).1 (by decide),
   (validate_type_boolean_correct "F" "X" (Value.vStr "Yes")).2.1 (by decide) (by decide),
   (validate_type_boolean_correct "F" "X" (Value.vStr " n ")).2.2.1 (by decide) (by decide),
   (validate_type_boolean_correct "F" "X" (Value.vStr "maybe")).2.2.2 (by decide) (by decide)⟩

/-! ### C3 / C4 : fk_resolver.py -/

/-- Target-entity rows used by the lookup counterexamples: one vendor row
    with CODE V1 but NAME OTHER. -/
def fkData3 : List SRow := [[("CODE", "V1"), ("NAME", "OTHER"), ("ID", "id-1")]]

/-- Two declared match rules: CODE from "Vendor Code", NAME from
    "Vendor Name". -/
def fkRules3 : List MatchField :=
  [{ field := some "CODE", fromCol := some "Vendor Code" },
   { field := some "NAME", fromCol := some "Vendor Name" }]

/-- A source row supplying only the first rule's column. -/
def fkRow3 : Row := [("Vendor Code", Value.vStr "V1")]

/-- C3 counterexample: the source row lacks any value for the second match
    rule's source column "Vendor Name", yet the lookup is not skipped — the
    unmatched rule is silently dropped and the candidate is accepted on the
    remaining criterion alone, although its NAME ("OTHER") matches nothing in
    the source row. -/
theorem lookup_id_partial_rules_counterexample :
    rget fkRow3 "Vendor Name" = none ∧
    lookup_id fkData3 fkRules3 fkRow3 = some "id-1" ∧
    some "id-1" ≠ (none : Option String) := by
  decide

/-- When no rule contributes a criterion, the criteria fold returns its
    accumulator unchanged. -/
theorem buildCriteria_eq_nil (row : Row) :
    ∀ (mfs : List MatchField) (acc : List (String × String)),
    (∀ mf ∈ mfs, criterionOf row mf = none) →
    mfs.foldl (fun criteria mf =>
      match criterionOf row mf with
      | some kv => dictInsert criteria kv.1 kv.2
      | none => criteria) acc = acc := by
  intro mfs
  induction mfs with
  | nil => intro acc _; rfl
  | cons mf rest ih =>
      intro acc hall
      have hmf : criterionOf row mf = none := hall mf (List.mem_cons_self mf rest)
      simp only [List.foldl_cons, hmf]
      exact ih acc (fun mf2 h2 => hall mf2 (List.mem_cons_of_mem mf h2))

/-- C3 (amended): the lookup is skipped and returns absent only when no
    match rule at all contributes a criterion (in particular when every
    rule's source value is blank or absent); and an accepted candidate row
    matches every criterion that the rules did contribute — rules whose
    source value is blank or absent are dropped rather than blocking. -/
theorem lookup_id_amended (data : List SRow) (mfs : List MatchField) (row : Row) :
    ((∀ mf ∈ mfs, criterionOf row mf = none) → lookup_id data mfs row = none) ∧
    (∀ i, lookup_id data mfs row = some i →
      ∃ r, r ∈ data ∧ sget r "ID" = some i ∧
        ∀ fv ∈ buildCriteria mfs row, criterionHolds r fv = true) := by
  constructor
  · intro hall
    have hcrit : buildCriteria mfs row = [] := buildCriteria_eq_nil row mfs [] hall
    by_cases hd : data.isEmpty
    · simp [lookup_id, hd]
    · simp [lookup_id, hd, hcrit]
  · intro i h
    by_cases hd : data.isEmpty
    · simp [lookup_id, hd] at h
    · by_cases hc : (buildCriteria mfs row).isEmpty
      · simp [lookup_id, hd, hc] at h
      · simp only [lookup_id, hd, hc, if_false, Bool.false_eq_true] at h
        cases hf : data.find? (rowMatches (buildCriteria mfs row)) with
        | none => rw [hf] at h; simp at h
        | some r =>
            rw [hf] at h
            refine ⟨r, List.mem_of_find?_eq_some hf, h, ?_⟩
            have hmatch : rowMatches (buildCriteria mfs row) r = true := List.find?_some hf
            intro fv hfv
            exact List.all_eq_true.mp hmatch fv hfv

/-- Witness for C3: a row with no usable rule value is skipped, and an
    accepted candidate satisfies every contributed criterion. -/
theorem lookup_id_amended_witness :
    lookup_id fkData3 fkRules3 [("X", Value.vStr "1")] = none ∧
    (∃ r, r ∈ fkData3 ∧ sget r "ID" = some "id-1" ∧
      ∀ fv ∈ buildCriteria
          [{ field := some "CODE", fromCol := some "Vendor Code" }] fkRow3,
        criterionHolds r fv = true) :=
  ⟨(lookup_id_amended fkData3 fkRules3 [("X", Value.vStr "1")]).1 (by decide),
   (lookup_id_amended fkData3
      [{ field := some "CODE", fromCol := some "Vendor Code" }] fkRow3).2 "id-1"
      (by decide)⟩

/-- The lookup definition used by the passthrough counterexample. -/
def fkLookupDef : LookupDef :=
  { entity := some "VENDORS", matchFields := fkRules3, optionalFlag := false }

/-- C4 counterexample: a source row supplying " v1 " (non-blank) in the
    foreign key's own column VENDOR_ID resolves to the stripped "v1", not to
    the value verbatim. -/
theorem resolve_all_fks_not_verbatim :
    resolve_all_fks (fun _ => fkData3) [("VENDOR_ID", fkLookupDef)]
        [("VENDOR_ID", Value.vStr " v1 ")] =
      [("VENDOR_ID", some "v1")] ∧ (" v1 " : String) ≠ "v1" := by
  decide

/-- Overwriting the bindings of key `k` leaves lookups of `fk ≠ k`
    unchanged. -/
theorem find?_overwrite_ne (k fk : String) (v : Option String) (hne : k ≠ fk)
    (d : List (String × Option String)) :
    (d.map (fun p => if p.1 == k then (k, v) else p)).find? (fun p => p.1 == fk) =
      d.find? (fun p => p.1 == fk) := by
  induction d with
  | nil => rfl
  | cons p rest ih =>
      simp only [List.map_cons, List.find?_cons]
      by_cases hpk : (p.1 == k) = true
      · have h2 : (p.1 == fk) = false := by
          simp only [beq_eq_false_iff_ne, ne_eq]
          intro hx
          exact hne ((eq_of_beq hpk).symm.trans hx)

        have h1 : ((k, v).1 == fk) = false := by
          simp only [beq_eq_false_iff_ne, ne_eq]
          exact hne
        rw [hpk]
        simp only [if_true, h1, h2]
        exact ih
      · rw [Bool.not_eq_true] at hpk
        rw [hpk]
        simp only [Bool.false_eq_true, if_false]
        cases hfk : (p.1 == fk)
        · simp only [ih]
        · rfl

/-- Overwriting the bindings of a key present in the dict makes lookups of
    that key return the new pair. -/
theorem find?_overwrite_self (fk : String) (v : Option String)
    (d : List (String × Option String))
    (hp : (d.find? (fun p => p.1 == fk)).isSome = true) :
    (d.map (fun p => if p.1 == fk then (fk, v) else p)).find? (fun p => p.1 == fk) =
      some (fk, v) := by
  induction d with
  | nil => simp at hp
  | cons p rest ih =>
      simp only [List.map_cons, List.find?_cons]
      by_cases hpk : (p.1 == fk) = true
      · rw [hpk]
        simp
      · rw [Bool.not_eq_true] at hpk
        rw [hpk]
        simp only [Bool.false_eq_true, if_false]
        rw [hpk]
        apply ih
        simp only [List.find?_cons, hpk] at hp
        exact hp

/-- Looking up an untouched key is unchanged by a dict insert at another
    key. -/
theorem find?_dictInsertO_ne (d : List (String × Option String)) (k fk : String)
    (v : Option String) (hne : k ≠ fk) :
    (dictInsertO d k v).find? (fun p => p.1 == fk) = d.find? (fun p => p.1 == fk) := by
  unfold dictInsertO
  by_cases hp : (d.find? (fun p => p.1 == k)).isSome
  · simp only [hp, if_true]
    exact find?_overwrite_ne k fk v hne d
  · simp only [hp, Bool.false_eq_true, if_false]
    rw [List.find?_append]
    have hsingle : ([(k, v)].find? (fun p => p.1 == fk)) = none := by
      have h1 : ((k, v).1 == fk) = false := by
        simp only [beq_eq_false_iff_ne, ne_eq]
        exact hne
      simp [List.find?_cons, h1]
    simp [hsingle]

/-- After a dict insert at `fk`, looking up `fk` yields the inserted pair. -/
theorem find?_dictInsertO_self (d : List (String × Option String)) (fk : String)
    (v : Option String) :
    (dictInsertO d fk v).find? (fun p => p.1 == fk) = some (fk, v) := by
  unfold dictInsertO
  by_cases hp : (d.find? (fun p => p.1 == fk)).isSome
  · simp only [hp, if_true]
    exact find?_overwrite_self fk v d hp
  · simp only [hp, Bool.false_eq_true, if_false]
    rw [List.find?_append]
    have hnone : d.find? (fun p => p.1 == fk) = none := by
      cases hq : d.find? (fun p => p.1 == fk)
      · rfl
      · rw [hq] at hp; simp at hp
    simp [hnone]

/-- A fold of `resolveStep` over entries whose keys avoid `fk` leaves the
    `fk` binding unchanged. -/
theorem resolve_fold_avoid (loadData : String → List SRow) (row : Row)
    (L : List (String × LookupDef)) (resolved : List (String × Option String))
    (fk : String) (hfk : fk ∉ L.map Prod.fst) :
    (L.foldl (resolveStep loadData row) resolved).find? (fun p => p.1 == fk) =
      resolved.find? (fun p => p.1 == fk) := by
  induction L generalizing resolved with
  | nil => rfl
  | cons e rest ih =>
      have hne : e.1 ≠ fk := by
        intro hx
        exact hfk (hx ▸ List.mem_map_of_mem Prod.fst (List.mem_cons_self e rest))
      have hrest : fk ∉ rest.map Prod.fst := by
        intro hx
        exact hfk (List.mem_cons_of_mem _ hx)
      rw [List.foldl_cons, ih _ hrest]
      unfold resolveStep
      by_cases he : truthyOptStr e.2.entity
      · simp only [he, if_true]
        cases rget row e.1 with
        | none => exact find?_dictInsertO_ne _ _ _ _ hne
        | some v =>
            by_cases hv : v.truthy
            · simp only [hv, if_true]
              exact find?_dictInsertO_ne _ _ _ _ hne
            · simp only [hv, Bool.false_eq_true, if_false]
              exact find?_dictInsertO_ne _ _ _ _ hne
      · simp only [he, Bool.false_eq_true, if_false]

/-- C4 (amended): when the source row supplies a truthy value in the
    foreign key's own column, `resolve_all_fks` binds that field to the
    stripped string form of the value — for every store-loading function,
    so no natural-key lookup influences the result — even though stripping
    means the value is not returned verbatim. -/
theorem resolve_all_fks_passthrough (loadData : String → List SRow)
    (lookups : List (String × LookupDef)) (row : Row) (fk : String)
    (ld : LookupDef) (v : Value)
    (hnodup : (lookups.map Prod.fst).Nodup)
    (hmem : (fk, ld) ∈ lookups)
    (hent : truthyOptStr ld.entity = true)
    (hval : rget row fk = some v)
    (htruthy : v.truthy = true) :
    (resolve_all_fks loadData lookups row).find? (fun p => p.1 == fk) =
      some (fk, some (pyStrip v.toStr)) := by
  unfold resolve_all_fks
  have main : ∀ (L : List (String × LookupDef)) (resolved : List (String × Option String)),
      (L.map Prod.fst).Nodup → (fk, ld) ∈ L →
      (L.foldl (resolveStep loadData row) resolved).find? (fun p => p.1 == fk) =
        some (fk, some (pyStrip v.toStr)) := by
    intro L
    induction L with
    | nil => intro resolved _ hm; cases hm
    | cons e rest ih =>
        intro resolved hnd hm
        rcases List.mem_cons.mp hm with heq | htail
        · subst heq
          rw [List.foldl_cons]
          have hrest : fk ∉ rest.map Prod.fst := by
            simp only [List.map_cons, List.nodup_cons] at hnd
            exact hnd.1
          rw [resolve_fold_avoid loadData row rest _ fk hrest]
          unfold resolveStep
          simp only [hent, if_true, hval, htruthy, if_true]
          exact find?_dictInsertO_self _ _ _
        · rw [List.foldl_cons]
          have hnd2 : (rest.map Prod.fst).Nodup := by
            simp only [List.map_cons, List.nodup_cons] at hnd
            exact hnd.2
          exact ih _ hnd2 htail
  exact main lookups [] hnodup hmem

/-- Witness for C4 at a concrete row carrying " v1 " in VENDOR_ID, with an
    empty store. -/
theorem resolve_all_fks_passthrough_witness :
    (resolve_all_fks (fun _ => []) [("VENDOR_ID", fkLookupDef)]
        [("VENDOR_ID", Value.vStr " v1 ")]).find? (fun p => p.1 == "VENDOR_ID") =
      some ("VENDOR_ID", some "v1") := by
  have h := resolve_all_fks_passthrough (fun _ => []) [("VENDOR_ID", fkLookupDef)]
    [("VENDOR_ID", Value.vStr " v1 ")] "VENDOR_ID" fkLookupDef (Value.vStr " v1 ")
    (by decide) (by decide) (by decide) (by decide) (by decide)
  simpa using h

/-! ### C5 : cds_parser.py build_dependencies -/

/-- Entities used by the C5 counterexample: A has a UUID field B_ID (not
    self-referential) but no association; B exists. -/
def cex5 : List (String × EntityDef) :=
  [("A", { fields := [{ name := "B_ID", type := "UUID", key := false }],
           associations := [] }),
   ("B", { fields := [], associations := [] })]

/-- C5 counterexample: although entity A declares the identifier field B_ID
    (UUID-typed, not self-referential), `build_dependencies` produces no
    edge out of A — the `*_ID` heuristic fires only when a matching
    association named B also exists, which here it does not. -/
theorem build_dependencies_id_field_counterexample :
    build_dependencies cex5 = [("A", []), ("B", [])] ∧
    ¬ "B" ∈ ((((build_dependencies cex5).find? (fun p => p.1 == "A")).map (·.2)).getD []) := by
  decide

/-- One association step only grows its accumulator. -/
theorem assocStep_mono (ename : String) (acc : List String) (a : AssocD) (x : String)
    (hx : x ∈ acc) : x ∈ assocStep ename acc a := by
  unfold assocStep
  by_cases hc : (a.target != "" && a.target != ename && !(acc.contains a.target)) = true
  · rw [hc]
    simp only [if_true]
    exact List.mem_append_left _ hx
  · rw [Bool.not_eq_true] at hc
    rw [hc]
    simpa using hx

/-- The association fold only grows its accumulator. -/
theorem assocTargets_fold_mono (ename : String) (assocs : List AssocD) :
    ∀ (acc : List String) (x : String), x ∈ acc →
    x ∈ assocs.foldl (assocStep ename) acc := by
  induction assocs with
  | nil => intro acc x hx; exact hx
  | cons a rest ih =>
      intro acc x hx
      rw [List.foldl_cons]
      exact ih _ x (assocStep_mono ename acc a x hx)

/-- One association step puts its own truthy non-self target into the
    accumulator. -/
theorem assocStep_self (ename : String) (acc : List String) (a : AssocD)
    (hne : a.target ≠ "") (hself : a.target ≠ ename) :
    a.target ∈ assocStep ename acc a := by
  unfold assocStep
  by_cases hc : (acc.contains a.target) = true
  · have h := assocStep_mono ename acc a a.target (mem_of_contains_eq_true hc)
    unfold assocStep at h
    exact h
  · have hg : (a.target != "" && a.target != ename && !(acc.contains a.target)) = true := by
      simp only [Bool.and_eq_true, bne_iff_ne, ne_eq]
      refine ⟨⟨hne, hself⟩, ?_⟩
      cases h2 : acc.contains a.target
      · rfl
      · exact absurd h2 hc
    rw [hg]
    simp only [if_true]
    exact List.mem_append_right _ (List.mem_singleton.mpr rfl)

/-- Every truthy, non-self association target ends up in the association
    fold's result. -/
theorem assocTargets_fold_complete (ename : String) (assocs : List AssocD) :
    ∀ (acc : List String) (a : AssocD), a ∈ assocs → a.target ≠ "" → a.target ≠ ename →
    a.target ∈ assocs.foldl (assocStep ename) acc := by
  induction assocs with
  | nil => intro acc a ha; cases ha
  | cons a0 rest ih =>
      intro acc a ha hne hself
      rcases List.mem_cons.mp ha with heq | htail
      · subst heq
        rw [List.foldl_cons]
        exact assocTargets_fold_mono ename rest _ a.target
          (assocStep_self ename acc a hne hself)
      · rw [List.foldl_cons]
        exact ih _ a htail hne hself

/-- Every truthy, non-self association target of an entity appears in its
    `assocTargets`. -/
theorem mem_assocTargets (ename : String) (edef : EntityDef) (a : AssocD)
    (ha : a ∈ edef.associations) (hne : a.target ≠ "") (hself : a.target ≠ ename) :
    a.target ∈ assocTargets ename edef :=
  assocTargets_fold_complete ename edef.associations [] a ha hne hself

/-- One `*_ID` heuristic step changes nothing when the accumulator already
    contains every truthy non-self association target. -/
theorem idHeuristicStep_eq (ename : String) (assocs : List AssocD) (start : List String)
    (f : FieldD)
    (hstart : ∀ a ∈ assocs, a.target ≠ "" → a.target ≠ ename → a.target ∈ start) :
    idHeuristicStep ename assocs start f = start := by
  unfold idHeuristicStep
  by_cases hf : (pyEndsWith f.name "_ID" && pyStartsWith (pyUpper f.type) "UUID") = true
  · rw [hf]
    simp only [if_true]
    cases hfind : assocs.find?
        (fun a => a.name == (⟨f.name.toList.take (f.name.toList.length - 3)⟩ : String)) with
    | none => rfl
    | some a =>
        dsimp only
        by_cases ht : (a.target != "") = true
        · rw [ht]
          simp only [if_true]
          by_cases hs : (a.target != ename) = true
          · have hmem : a.target ∈ start :=
              hstart a (List.mem_of_find?_eq_some hfind)
                (bne_iff_ne.mp ht) (bne_iff_ne.mp hs)
            have hcont : (start.contains a.target) = true :=
              List.elem_eq_true_of_mem hmem
            rw [hs, hcont]
            simp
          · rw [Bool.not_eq_true] at hs
            rw [hs]
            simp
        · rw [Bool.not_eq_true] at ht
          rw [ht]
          simp
  · rw [Bool.not_eq_true] at hf
    rw [hf]
    simp

/-- The `*_ID` heuristic adds nothing to a start list already containing
    every truthy non-self association target. -/
theorem idHeuristicTargets_eq_start (ename : String) (edef : EntityDef) :
    ∀ (start : List String),
    (∀ a ∈ edef.associations, a.target ≠ "" → a.target ≠ ename → a.target ∈ start) →
    idHeuristicTargets ename edef start = start := by
  unfold idHeuristicTargets
  generalize edef.fields = fields
  induction fields with
  | nil => intro start _; rfl
  | cons f rest ih =>
      intro start hstart
      rw [List.foldl_cons, idHeuristicStep_eq ename edef.associations start f hstart]
      exact ih start hstart

/-- C5 (amended): the dependency map built by `build_dependencies` contains
    an edge from A to B exactly for the truthy, non-self association targets
    B of A (first occurrence order); the `<X>_ID` identifier-field heuristic
    contributes no additional edge, because it only ever adds the target of
    an association named X, which the association rule has already added. -/
theorem build_dependencies_assoc_only (parsed : List (String × EntityDef)) :
    build_dependencies parsed = parsed.map (fun p => (p.1, assocTargets p.1 p.2)) := by
  unfold build_dependencies
  apply List.map_congr_left
  intro p _
  have h := idHeuristicTargets_eq_start p.1 p.2 (assocTargets p.1 p.2)
    (fun a ha hne hself => mem_assocTargets p.1 p.2 a ha hne hself)
  rw [h]

/-! ### C7 / C8 : append_writer.py -/

/-- C7: after appending the staged rows to an existing target file with
    header H, the header is still H, the pre-existing rows are unchanged as
    a prefix, exactly the staged row count is added, and every appended row
    is the projection of its staged row onto H — it has one cell per H
    column and nothing else (staged columns outside H are dropped), every H
    column present in the staged row keeps its value and every H column
    absent from it is written blank. -/
theorem append_entity_column_safety (e : String) (H : List String)
    (rowsT : List (List String)) (S : List String) (rowsS : List (List String)) :
    ∃ fileOut,
      (append_entity e (some ⟨H, rowsT⟩) ⟨S, rowsS⟩ none).2 = some fileOut ∧
      fileOut.header = H ∧
      fileOut.rows.length = rowsT.length + rowsS.length ∧
      fileOut.rows.take rowsT.length = rowsT ∧
      fileOut.rows.drop rowsT.length = rowsS.map (projectRow H S) ∧
      (append_entity e (some ⟨H, rowsT⟩) ⟨S, rowsS⟩ none).1.appended = rowsS.length ∧
      (append_entity e (some ⟨H, rowsT⟩) ⟨S, rowsS⟩ none).1.error = none ∧
      (∀ cells, (projectRow H S cells).length = H.length) ∧
      (∀ cells h, sget (rowDict S cells) h = none → outCell S cells h = "") ∧
      (∀ cells h v, sget (rowDict S cells) h = some v → outCell S cells h = v) := by
  refine ⟨⟨H, rowsT ++ rowsS.map (projectRow H S)⟩, rfl, rfl, ?_, ?_, ?_, rfl, rfl, ?_, ?_, ?_⟩
  · simp
  · exact List.take_left rowsT _
  · exact List.drop_left rowsT _
  · intro cells
    simp [projectRow]
  · intro cells h hnone
    simp [outCell, hnone]
  · intro cells h v hsome
    simp [outCell, hsome]

/-- C8: when the target file existed before the append (so a backup copy of
    it was taken) and an exception is raised during the write — modelled as
    firing after `k` staged rows have been written — `append_entity`
    restores the backup over the target, leaving the target file equal to
    its pre-append contents, and returns an error result reporting the
    backup and zero appended rows. -/
theorem append_entity_rollback (e : String) (t : Csv) (staged : Csv) (k : Nat) :
    (append_entity e (some t) staged (some k)).2 = some t ∧
    (append_entity e (some t) staged (some k)).1.error = some "Failed to append" ∧
    (append_entity e (some t) staged (some k)).1.appended = 0 ∧
    (append_entity e (some t) staged (some k)).1.backup = some t :=
  ⟨rfl, rfl, rfl, rfl⟩

/-! ### C6 : transformer.py master-data idempotence -/

/-- For a master entity, when every successful transform lands on a
    natural key already in the accumulated key set, the loop body drops the
    row without staging it and without touching the loop state other than
    the error records; and when the transform succeeds (truthy), not even
    an error record is produced. -/
theorem teBody_master_skip (rowXform : Row → List Row → Option Row × List String)
    (entity : String) (st : TEState) (idx : Nat) (r : Row) (existing_rows : List Row)
    (hdedup : should_deduplicate entity = true)
    (hall : st.all_rows = existing_rows)
    (hkey : ∀ out errs, rowXform r existing_rows = (some out, errs) → out ≠ [] →
      storeKey (get_dedup_keys entity) out ∈ st.existing_key_set) :
    (teBody rowXform entity st idx r).all_rows = st.all_rows ∧
    (teBody rowXform entity st idx r).valid_rows = st.valid_rows ∧
    (teBody rowXform entity st idx r).existing_key_set = st.existing_key_set ∧
    (teBody rowXform entity st idx r).seen_keys = st.seen_keys ∧
    ((∃ out, (rowXform r existing_rows).1 = some out ∧ out ≠ []) →
      (teBody rowXform entity st idx r).error_records = st.error_records) := by
  unfold teBody
  cases hres : rowXform r st.all_rows with
  | mk o errs =>
      rw [hall] at hres
      cases o with
      | none =>
          simp only [Bool.false_eq_true, if_false]
          refine ⟨?_, ?_, ?_, ?_, ?_⟩




          · split
            · rfl
            · split <;> rfl
          · split
            · rfl
            · split <;> rfl
          · split
            · rfl
            · split <;> rfl
          · split
            · rfl
            · split <;> rfl
          · rintro ⟨out, hout, -⟩
            rw [hres] at hout
            simp at hout
      | some out =>
          cases out with
          | nil =>
              simp only [List.isEmpty_nil, Bool.not_true, Bool.false_eq_true, if_false]
              refine ⟨?_, ?_, ?_, ?_, ?_⟩
              · split
                · rfl
                · split <;> rfl
              · split
                · rfl
                · split <;> rfl
              · split
                · rfl
                · split <;> rfl
              · split
                · rfl
                · split <;> rfl
              · rintro ⟨out2, hout, hne⟩
                rw [hres] at hout
                simp at hout
                subst hout
                exact absurd rfl hne
          | cons c cs =>
              have hmem : storeKey (get_dedup_keys entity) (c :: cs) ∈ st.existing_key_set :=
                hkey (c :: cs) errs hres (by simp)
              have hcont : (st.existing_key_set.contains
                  (storeKey (get_dedup_keys entity) (c :: cs))) = true :=
                List.elem_eq_true_of_mem hmem
              simp [hdedup, hmem]

/-- Loop form of the master-data skip: under the key hypothesis the state
    components other than `seen_keys` and the error records are untouched,
    and with every transform succeeding the error records are untouched
    too. -/
theorem teLoop_master_skip (rowXform : Row → List Row → Option Row × List String)
    (entity : String) (columnMap : List (String × String)) (existing_rows : List Row)
    (hdedup : should_deduplicate entity = true) :
    ∀ (rows : List Row) (st : TEState) (idx : Nat),
    st.all_rows = existing_rows →
    (∀ r ∈ rows, ∀ out errs, rowXform r existing_rows = (some out, errs) → out ≠ [] →
      storeKey (get_dedup_keys entity) out ∈ st.existing_key_set) →
    (teLoop rowXform entity columnMap st idx rows).all_rows = existing_rows ∧
    (teLoop rowXform entity columnMap st idx rows).valid_rows = st.valid_rows ∧
    (teLoop rowXform entity columnMap st idx rows).existing_key_set = st.existing_key_set ∧
    ((∀ r ∈ rows, ∃ out, (rowXform r existing_rows).1 = some out ∧ out ≠ []) →
      (teLoop rowXform entity columnMap st idx rows).error_records = st.error_records) := by
  intro rows
  induction rows with
  | nil =>
      intro st idx hall _
      exact ⟨hall, rfl, rfl, fun _ => rfl⟩
  | cons r rest ih =>
      intro st idx hall hkeys
      rw [teLoop]
      have hstep := fun (st2 : TEState) (hall2 : st2.all_rows = existing_rows)
          (hset2 : st2.existing_key_set = st.existing_key_set) =>
        teBody_master_skip rowXform entity st2 idx r existing_rows hdedup hall2
          (fun out errs hres hne => hset2 ▸
            hkeys r (List.mem_cons_self r rest) out errs hres hne)
      unfold teStep
      rw [hdedup]
      simp only [if_true]
      by_cases hblank :
          ((batchKey columnMap (get_dedup_keys entity) r).all (fun v => v == "")) = true
      · rw [hblank]
        simp only [if_true]
        obtain ⟨a, b, c, d⟩ := ih st (idx + 1) hall
          (fun r2 h2 => hkeys r2 (List.mem_cons_of_mem r h2))
        exact ⟨a, b, c, fun hsucc => d (fun r2 h2 => hsucc r2 (List.mem_cons_of_mem r h2))⟩
      · rw [Bool.not_eq_true] at hblank
        rw [hblank]
        simp only [Bool.false_eq_true, if_false]
        by_cases hseen :
            (st.seen_keys.contains (batchKey columnMap (get_dedup_keys entity) r)) = true
        · rw [hseen]
          simp only [if_true]
          obtain ⟨a, b, c, d⟩ := ih st (idx + 1) hall
            (fun r2 h2 => hkeys r2 (List.mem_cons_of_mem r h2))
          exact ⟨a, b, c, fun hsucc => d (fun r2 h2 => hsucc r2 (List.mem_cons_of_mem r h2))⟩
        · rw [Bool.not_eq_true] at hseen
          rw [hseen]
          simp only [Bool.false_eq_true, if_false]
          set st1 : TEState :=
            { st with seen_keys := st.seen_keys ++
                [batchKey columnMap (get_dedup_keys entity) r] } with hst1
          obtain ⟨hb1, hb2, hb3, hb4, hb5⟩ := hstep st1 hall rfl
          obtain ⟨hl1, hl2, hl3, hl4⟩ := ih (teBody rowXform entity st1 idx r) (idx + 1)
            (hb1.trans hall)
            (fun r2 h2 out errs hres hne => hb3 ▸
              hkeys r2 (List.mem_cons_of_mem r h2) out errs hres hne)
          refine ⟨hl1, hl2.trans hb2, hl3.trans hb3, ?_⟩
          intro hsucc
          rw [hl4 (fun r2 h2 => hsucc r2 (List.mem_cons_of_mem r h2))]
          exact hb5 (hsucc r (List.mem_cons_self r rest))

/-- C6: staging is idempotent for master data.  For a deduplicated entity,
    if every row that transforms successfully against the persisted rows
    has a natural key already present in the persisted store's key set,
    then `transform_entity` stages zero rows — each such row is silently
    dropped after transformation — and if moreover every source row's
    transform succeeds, no error records are produced either. -/
theorem transform_entity_master_idempotent
    (rowXform : Row → List Row → Option Row × List String)
    (entity : String) (columnMap : List (String × String))
    (existing_rows excel_rows : List Row)
    (hdedup : should_deduplicate entity = true)
    (hkeys : ∀ r ∈ excel_rows, ∀ out errs, rowXform r existing_rows = (some out, errs) →
      out ≠ [] →
      storeKey (get_dedup_keys entity) out ∈ buildExistingKeySet entity existing_rows) :
    (transform_entity rowXform entity columnMap true existing_rows excel_rows).1 = [] ∧
    ((∀ r ∈ excel_rows, ∃ out, (rowXform r existing_rows).1 = some out ∧ out ≠ []) →
      (transform_entity rowXform entity columnMap true existing_rows excel_rows).2 = []) := by
  unfold transform_entity
  simp only [Bool.not_true, Bool.false_eq_true, if_false, hdedup, if_true]
  have h := teLoop_master_skip rowXform entity columnMap existing_rows hdedup excel_rows
    { all_rows := existing_rows, existing_key_set := buildExistingKeySet entity existing_rows,
      seen_keys := [], valid_rows := [], error_records := [] } 1 rfl
    (fun r hr out errs hres hne => hkeys r hr out errs hres hne)
  exact ⟨h.2.1, h.2.2.2⟩

/-- Concrete row transform used by the C6 witness: every source row
    transforms to the vendor row with CODE V1. -/
def c6Xform : Row → List Row → Option Row × List String :=
  fun _ _ => (some [("CODE", Value.vStr "V1")], [])

/-- Witness for C6: re-staging the one-vendor spreadsheet against a store
    already containing vendor V1 stages nothing and records no errors. -/
theorem transform_entity_master_idempotent_witness :
    (transform_entity c6Xform "VENDORS" [("Vendor Code", "CODE")] true
      [[("CODE", Value.vStr "V1")]] [[("Vendor Code", Value.vStr "V1")]]).1 = [] ∧
    (transform_entity c6Xform "VENDORS" [("Vendor Code", "CODE")] true
      [[("CODE", Value.vStr "V1")]] [[("Vendor Code", Value.vStr "V1")]]).2 = [] := by
  have h := transform_entity_master_idempotent c6Xform "VENDORS" [("Vendor Code", "CODE")]
    [[("CODE", Value.vStr "V1")]] [[("Vendor Code", Value.vStr "V1")]]
    (by decide)
    (by
      intro r hr out errs hres hne
      have h1 : (some [("CODE", Value.vStr "V1")] : Option Row) = some out :=
        congrArg Prod.fst hres
      have h2 : ([("CODE", Value.vStr "V1")] : Row) = out := Option.some.inj h1
      rw [← h2]
      decide)
  exact ⟨h.1, h.2 (fun r hr => ⟨[("CODE", Value.vStr "V1")], rfl, by decide⟩)⟩

/-- Witness for C7: blank-fill and copy behavior of the appended projection
    at a concrete header and staged row. -/
theorem append_entity_column_safety_witness :
    outCell ["B", "C"] ["b1", "c1"] "A" = "" ∧ outCell ["B", "C"] ["b1", "c1"] "B" = "b1" := by
  obtain ⟨fileOut, -, -, -, -, -, -, -, -, hblank, hcopy⟩ :=
    append_entity_column_safety "E" ["A", "B"] [["1", "2"]] ["B", "C"] [["b1", "c1"]]
  exact ⟨hblank ["b1", "c1"] "A" (by decide), hcopy ["b1", "c1"] "B" "b1" (by decide)⟩

/-! ### C2 : staging_engine.py multi-pass termination -/

/-- Behavior of the retry loop under its invariants: the pass counter never
    exceeds 5; a `converged` stop leaves no FK-error entities; an
    `exhausted` stop only happens after exactly 5 passes; stopping before
    the fifth pass is convergence or no-improvement; and a `noImprovement`
    stop exhibits the non-decreasing error totals over the retried set. -/
theorem stage_all_loop_spec (stage : Nat → String → EntityResult) :
    ∀ (fuel : Nat) (results : Results) (passNum passesDone : Nat) (hist : List Results),
    passNum = passesDone + 1 →
    passNum ≤ 6 →
    7 ≤ fuel + passNum →
    hist.reverse.head? = some results →
    (stage_all_loop stage fuel results passNum passesDone hist).passes ≤ 5 ∧
    ((stage_all_loop stage fuel results passNum passesDone hist).reason =
        StopReason.converged →
      fkEntities (stage_all_loop stage fuel results passNum passesDone hist).results = []) ∧
    ((stage_all_loop stage fuel results passNum passesDone hist).reason =
        StopReason.exhausted →
      (stage_all_loop stage fuel results passNum passesDone hist).passes = 5) ∧
    ((stage_all_loop stage fuel results passNum passesDone hist).passes < 5 →
      (stage_all_loop stage fuel results passNum passesDone hist).reason =
          StopReason.converged ∨
        (stage_all_loop stage fuel results passNum passesDone hist).reason =
          StopReason.noImprovement) ∧
    ((stage_all_loop stage fuel results passNum passesDone hist).reason =
        StopReason.noImprovement →
      ∃ prev rest,
        (stage_all_loop stage fuel results passNum passesDone hist).hist.reverse =
          (stage_all_loop stage fuel results passNum passesDone hist).results ::
            prev :: rest ∧
        fkEntities prev ≠ [] ∧
        totalErrors prev (fkEntities prev) ≤
          totalErrors (stage_all_loop stage fuel results passNum passesDone hist).results
            (fkEntities prev)) := by
  intro fuel
  induction fuel with
  | zero =>
      intro results passNum passesDone hist h1 h2 h3 _
      omega
  | succ fuel ih =>
      intro results passNum passesDone hist h1 h2 h3 hhist
      rw [stage_all_loop]
      by_cases hp : passNum ≤ 5
      · rw [if_pos hp]
        by_cases he : (fkEntities results).isEmpty = true
        · simp only [he, if_true]
          refine ⟨by omega, fun _ => List.isEmpty_iff.mp he, ?_, ?_, ?_⟩
          · intro hr
            exact StopReason.noConfusion hr
          · intro _
            first
              | exact Or.inl rfl
              | exact Or.inl trivial
          · intro hr
            exact StopReason.noConfusion hr
        · rw [Bool.not_eq_true] at he
          simp only [he, Bool.false_eq_true, if_false]
          by_cases hcmp : totalErrors results (fkEntities results) ≤
              totalErrors (runPass stage passNum results (fkEntities results))
                (fkEntities results)
          · rw [if_pos hcmp]
            dsimp only
            refine ⟨by omega, ?_, ?_, ?_, ?_⟩
            · intro hr
              exact StopReason.noConfusion hr
            · intro hr
              exact StopReason.noConfusion hr
            · intro _
              exact Or.inr rfl
            · intro _
              obtain ⟨rest, hrest⟩ : ∃ rest, hist.reverse = results :: rest := by
                cases hrev : hist.reverse with
                | nil => rw [hrev] at hhist; simp at hhist
                | cons a as =>
                    rw [hrev] at hhist
                    simp only [List.head?_cons, Option.some.injEq] at hhist
                    exact ⟨as, by rw [hhist]⟩
              refine ⟨results, rest, ?_, ?_, hcmp⟩
              · simp [hrest]
              · intro hx
                rw [hx] at he
                simp at he
          · rw [if_neg hcmp]
            have ih2 := ih (runPass stage passNum results (fkEntities results))
              (passNum + 1) (passesDone + 1) (hist ++ [runPass stage passNum results
                (fkEntities results)]) (by omega) (by omega) (by omega)
              (by simp)
            exact ih2
      · rw [if_neg hp]
        dsimp only
        refine ⟨by omega, ?_, ?_, ?_, ?_⟩
        · intro hr
          exact StopReason.noConfusion hr
        · intro _
          omega
        · intro hlt
          omega
        · intro hr
          exact StopReason.noConfusion hr

/-- C2: the multi-pass staging loop executes at most 5 total passes, and it
    stops before exhausting all 5 exactly on convergence (no entity's error
    records contain a FK-resolution error) or on no-improvement (the total
    error count over the retried entities did not decrease from the previous
    pass); an `exhausted` stop only occurs after exactly 5 passes, a
    `converged` stop leaves no FK-error entities in the final results, and a
    `noImprovement` stop exhibits the plateau between the last two recorded
    result states. -/
theorem stage_all_bounded (stage : Nat → String → EntityResult)
    (ingestion_order configured : List String) :
    (stage_all stage ingestion_order configured).passes ≤ 5 ∧
    ((stage_all stage ingestion_order configured).reason = StopReason.converged →
      fkEntities (stage_all stage ingestion_order configured).results = []) ∧
    ((stage_all stage ingestion_order configured).reason = StopReason.exhausted →
      (stage_all stage ingestion_order configured).passes = 5) ∧
    ((stage_all stage ingestion_order configured).passes < 5 →
      (stage_all stage ingestion_order configured).reason = StopReason.converged ∨
        (stage_all stage ingestion_order configured).reason = StopReason.noImprovement) ∧
    ((stage_all stage ingestion_order configured).reason = StopReason.noImprovement →
      ∃ prev rest,
        (stage_all stage ingestion_order configured).hist.reverse =
          (stage_all stage ingestion_order configured).results :: prev :: rest ∧
        fkEntities prev ≠ [] ∧
        totalErrors prev (fkEntities prev) ≤
          totalErrors (stage_all stage ingestion_order configured).results
            (fkEntities prev)) := by
  unfold stage_all
  exact stage_all_loop_spec stage 6 _ 2 1 _ rfl (by omega) (by omega) (by simp)

/-- All-clean staging oracle for the C2 witness. -/
def stageW : Nat → String → EntityResult :=
  fun _ _ => { valid_count := 1, error_count := 0, errors := [] }

/-- Witness for C2: with a clean single-entity run the loop converges on its
    first check and never exceeds the pass bound. -/
theorem stage_all_bounded_witness :
    (stage_all stageW ["A"] ["A"]).passes ≤ 5 ∧
    fkEntities (stage_all stageW ["A"] ["A"]).results = [] :=
  ⟨(stage_all_bounded stageW ["A"] ["A"]).1,
   (stage_all_bounded stageW ["A"] ["A"]).2.1 (by decide)⟩

/-! ### C1 : cds_parser.py topo_sort -/

theorem insertSet_mem {l : List String} {x y : String} :
    y ∈ insertSet l x ↔ (y ∈ l ∨ y = x) := by
  unfold insertSet
  by_cases hc : (l.contains x) = true
  · rw [if_pos hc]
    constructor
    · exact Or.inl
    · rintro (h | h)
      · exact h
      · exact h ▸ mem_of_contains_eq_true hc
  · rw [if_neg hc]
    simp

theorem insertSet_nodup {l : List String} {x : String} (h : l.Nodup) :
    (insertSet l x).Nodup := by
  unfold insertSet
  by_cases hc : (l.contains x) = true
  · rw [if_pos hc]
    exact h
  · rw [if_neg hc]
    rw [List.nodup_append]
    refine ⟨h, List.nodup_singleton x, ?_⟩
    intro a ha hx
    rw [List.mem_singleton] at hx
    subst hx
    have h2 : l.contains a = true := List.elem_eq_true_of_mem ha
    exact absurd h2 hc

theorem foldl_insertSet_mem (L : List String) :
    ∀ (acc : List String) (y : String),
    y ∈ L.foldl insertSet acc ↔ (y ∈ acc ∨ y ∈ L) := by
  induction L with
  | nil => intro acc y; simp
  | cons x rest ih =>
      intro acc y
      rw [List.foldl_cons, ih, insertSet_mem]
      simp only [List.mem_cons]
      tauto

theorem foldl_insertSet_nodup (L : List String) :
    ∀ (acc : List String), acc.Nodup → (L.foldl insertSet acc).Nodup := by
  induction L with
  | nil => intro acc h; exact h
  | cons x rest ih =>
      intro acc h
      exact ih _ (insertSet_nodup h)

theorem topoNodes_nodup (deps : List (String × List String)) :
    (topoNodes deps).Nodup :=
  foldl_insertSet_nodup _ [] List.nodup_nil

theorem mem_topoNodes (deps : List (String × List String)) (y : String) :
    y ∈ topoNodes deps ↔ (y ∈ deps.map Prod.fst ∨ ∃ p ∈ deps, y ∈ p.2) := by
  unfold topoNodes
  rw [foldl_insertSet_mem]
  simp [List.mem_append, List.mem_flatMap]

/-- Under unique keys, map membership through `depsGet`. -/
theorem depsGet_mem_iff (deps : List (String × List String))
    (hnd : (deps.map Prod.fst).Nodup) (n x : String) :
    x ∈ depsGet deps n ↔ ∃ p ∈ deps, p.1 = n ∧ x ∈ p.2 := by
  induction deps with
  | nil => simp [depsGet]
  | cons q rest ih =>
      simp only [List.map_cons, List.nodup_cons] at hnd
      by_cases hq : q.1 = n
      · have hfind : depsGet (q :: rest) n = q.2 := by
          unfold depsGet
          rw [List.find?_cons_of_pos _ (by simpa using hq)]
          rfl
        rw [hfind]
        constructor
        · intro hx
          exact ⟨q, List.mem_cons_self q rest, hq, hx⟩
        · rintro ⟨p, hp, hpn, hx⟩
          rcases List.mem_cons.mp hp with heq | htail
          · exact heq ▸ hx
          · exfalso
            apply hnd.1
            rw [hq, ← hpn]
            exact List.mem_map_of_mem Prod.fst htail
      · have hfind : depsGet (q :: rest) n = depsGet rest n := by
          unfold depsGet
          rw [List.find?_cons_of_neg _ (by simpa using hq)]
        rw [hfind, ih hnd.2]
        constructor
        · rintro ⟨p, hp, hpn, hx⟩
          exact ⟨p, List.mem_cons_of_mem q hp, hpn, hx⟩
        · rintro ⟨p, hp, hpn, hx⟩
          rcases List.mem_cons.mp hp with heq | htail
          · exact absurd (heq ▸ hpn) hq
          · exact ⟨p, htail, hpn, hx⟩

/-- A key of the dependency map is a node. -/
theorem key_mem_topoNodes {deps : List (String × List String)} {A B : String}
    (h : B ∈ depsGet deps A) : A ∈ topoNodes deps := by
  rw [mem_topoNodes]
  left
  unfold depsGet at h
  cases hf : deps.find? (fun p => p.1 == A) with
  | none => rw [hf] at h; simp at h
  | some p =>
      have hp := List.find?_some hf
      simp only [beq_iff_eq] at hp
      rw [← hp]
      exact List.mem_map_of_mem Prod.fst (List.mem_of_find?_eq_some hf)

/-- A dependency target is a node. -/
theorem target_mem_topoNodes {deps : List (String × List String)} {A B : String}
    (h : B ∈ depsGet deps A) : B ∈ topoNodes deps := by
  rw [mem_topoNodes]
  right
  unfold depsGet at h
  cases hf : deps.find? (fun p => p.1 == A) with
  | none => rw [hf] at h; simp at h
  | some p =>
      rw [hf] at h
      exact ⟨p, List.mem_of_find?_eq_some hf, h⟩

theorem sortStr_sorted (l : List String) : (sortStr l).Sorted strLe :=
  List.sorted_insertionSort strLe l

theorem sortStr_perm (l : List String) : (sortStr l).Perm l :=
  List.perm_insertionSort strLe l

theorem mem_sortStr {l : List String} {x : String} : x ∈ sortStr l ↔ x ∈ l :=
  (sortStr_perm l).mem_iff

theorem sortStr_nodup {l : List String} (h : l.Nodup) : (sortStr l).Nodup :=
  ((sortStr_perm l).nodup_iff).mpr h

/-- Two sorted duplicate-free string lists with the same members are
    equal. -/
theorem sorted_nodup_eq {l1 l2 : List String} (s1 : l1.Sorted strLe)
    (s2 : l2.Sorted strLe) (n1 : l1.Nodup) (n2 : l2.Nodup)
    (hm : ∀ x, x ∈ l1 ↔ x ∈ l2) : l1 = l2 := by
  apply List.eq_of_perm_of_sorted _ s1 s2
  apply List.perm_of_nodup_nodup_toFinset_eq n1 n2
  ext x
  simp [hm x]

theorem indexOf_append_mem {a : String} {l1 : List String} (l2 : List String)
    (h : a ∈ l1) : (l1 ++ l2).indexOf a = l1.indexOf a := by
  induction l1 with
  | nil => cases h
  | cons b rest ih =>
      by_cases hb : b = a
      · subst hb
        simp [List.indexOf_cons]
      · rcases List.mem_cons.mp h with heq | htail
        · exact absurd heq.symm hb
        · have hbeq : (b == a) = false := by
            simp only [beq_eq_false_iff_ne, ne_eq]
            exact hb
          simp only [List.cons_append, List.indexOf_cons, hbeq, Bool.cond_false]
          rw [ih htail]

theorem indexOf_append_not_mem {a : String} {l1 : List String} (l2 : List String)
    (h : a ∉ l1) : (l1 ++ l2).indexOf a = l1.length + l2.indexOf a := by
  induction l1 with
  | nil => simp
  | cons b rest ih =>
      have hb : (b == a) = false := by
        simp only [beq_eq_false_iff_ne, ne_eq]
        intro hx
        exact h (hx ▸ List.mem_cons_self b rest)
      have hrest : a ∉ rest := fun hx => h (List.mem_cons_of_mem b hx)
      simp only [List.cons_append, List.indexOf_cons, hb, Bool.cond_false, List.length_cons]
      rw [ih hrest]
      omega

theorem innerFoldInc_mem (k : String) (vs : List String) :
    ∀ (inc : String → List String) (m x : String),
    x ∈ (vs.foldl (fun inc v => updateF inc k (fun l => insertSet l v)) inc) m ↔
      (x ∈ inc m ∨ (m = k ∧ x ∈ vs)) := by
  induction vs with
  | nil => intro inc m x; simp
  | cons v rest ih =>
      intro inc m x
      rw [List.foldl_cons, ih]
      unfold updateF
      by_cases hm : m = k
      · subst hm
        simp only [beq_self_eq_true, if_true, insertSet_mem, List.mem_cons]
        tauto
      · have hbeq : (m == k) = false := by
          simp only [beq_eq_false_iff_ne, ne_eq]
          exact hm
        simp only [hbeq, Bool.false_eq_true, if_false]
        tauto

theorem buildIncoming_mem (deps : List (String × List String)) (m x : String) :
    x ∈ buildIncoming deps m ↔ ∃ p ∈ deps, p.1 = m ∧ x ∈ p.2 := by
  have h : ∀ (L : List (String × List String)) (inc : String → List String)
      (m x : String),
      x ∈ (L.foldl (fun inc p =>
        p.2.foldl (fun inc v => updateF inc p.1 (fun l => insertSet l v)) inc) inc) m ↔
        (x ∈ inc m ∨ ∃ p ∈ L, p.1 = m ∧ x ∈ p.2) := by
    intro L
    induction L with
    | nil => intro inc m x; simp
    | cons q rest ih =>
        intro inc m x
        rw [List.foldl_cons, ih, innerFoldInc_mem]
        constructor
        · rintro ((h | ⟨hm, hx⟩) | ⟨p, hp, h1, h2⟩)
          · exact Or.inl h
          · exact Or.inr ⟨q, List.mem_cons_self q rest, hm.symm, hx⟩
          · exact Or.inr ⟨p, List.mem_cons_of_mem q hp, h1, h2⟩
        · rintro (h | ⟨p, hp, h1, h2⟩)
          · exact Or.inl (Or.inl h)
          · rcases List.mem_cons.mp hp with heq | htail
            · subst heq
              exact Or.inl (Or.inr ⟨h1.symm, h2⟩)
            · exact Or.inr ⟨p, htail, h1, h2⟩
  rw [buildIncoming, h deps _ m x]
  simp

theorem innerFoldOut_mem (a : String) (ws : List String) :
    ∀ (out : String → List String) (v m : String),
    m ∈ (ws.foldl (fun out w => updateF out w (fun l => insertSet l a)) out) v ↔
      (m ∈ out v ∨ (m = a ∧ v ∈ ws)) := by
  induction ws with
  | nil => intro out v m; simp
  | cons w rest ih =>
      intro out v m
      rw [List.foldl_cons, ih]
      unfold updateF
      by_cases hv : v = w
      · subst hv
        simp only [beq_self_eq_true, if_true, insertSet_mem, List.mem_cons]
        tauto
      · have hbeq : (v == w) = false := by
          simp only [beq_eq_false_iff_ne, ne_eq]
          exact hv
        simp only [hbeq, Bool.false_eq_true, if_false, List.mem_cons]
        constructor
        · rintro (h | ⟨hm, hx⟩)
          · exact Or.inl h
          · exact Or.inr ⟨hm, Or.inr hx⟩
        · rintro (h | ⟨hm, hx | hx⟩)
          · exact Or.inl h
          · exact absurd hx hv
          · exact Or.inr ⟨hm, hx⟩

theorem buildOutgoing_mem (deps : List (String × List String)) (v m : String) :
    m ∈ buildOutgoing deps v ↔ ∃ p ∈ deps, p.1 = m ∧ v ∈ p.2 := by
  have h : ∀ (L : List (String × List String)) (out : String → List String)
      (v m : String),
      m ∈ (L.foldl (fun out p =>
        p.2.foldl (fun out w => updateF out w (fun l => insertSet l p.1)) out) out) v ↔
        (m ∈ out v ∨ ∃ p ∈ L, p.1 = m ∧ v ∈ p.2) := by
    intro L
    induction L with
    | nil => intro out v m; simp
    | cons q rest ih =>
        intro out v m
        rw [List.foldl_cons, ih, innerFoldOut_mem]
        constructor
        · rintro ((h | ⟨hm, hx⟩) | ⟨p, hp, h1, h2⟩)
          · exact Or.inl h
          · exact Or.inr ⟨q, List.mem_cons_self q rest, hm.symm, hx⟩
          · exact Or.inr ⟨p, List.mem_cons_of_mem q hp, h1, h2⟩
        · rintro (h | ⟨p, hp, h1, h2⟩)
          · exact Or.inl (Or.inl h)
          · rcases List.mem_cons.mp hp with heq | htail
            · subst heq
              exact Or.inl (Or.inr ⟨h1.symm, h2⟩)
            · exact Or.inr ⟨p, htail, h1, h2⟩
  rw [buildOutgoing, h deps _ v m]
  simp

/-- Membership characterization of the incoming map under unique keys. -/
theorem buildIncoming_mem_depsGet (deps : List (String × List String))
    (hnd : (deps.map Prod.fst).Nodup) (m x : String) :
    x ∈ buildIncoming deps m ↔ x ∈ depsGet deps m := by
  rw [buildIncoming_mem, depsGet_mem_iff deps hnd]

/-- Membership characterization of the outgoing map under unique keys. -/
theorem buildOutgoing_mem_depsGet (deps : List (String × List String))
    (hnd : (deps.map Prod.fst).Nodup) (v m : String) :
    m ∈ buildOutgoing deps v ↔ v ∈ depsGet deps m := by
  rw [buildOutgoing_mem, depsGet_mem_iff deps hnd]

theorem innerFoldOut_nodup (a : String) (ws : List String) :
    ∀ (out : String → List String), (∀ k, (out k).Nodup) →
    ∀ k, ((ws.foldl (fun out w => updateF out w (fun l => insertSet l a)) out) k).Nodup := by
  induction ws with
  | nil => intro out h k; exact h k
  | cons w rest ih =>
      intro out h k
      rw [List.foldl_cons]
      apply ih
      intro k2
      unfold updateF
      by_cases hk : (k2 == w) = true
      · rw [if_pos hk]
        exact insertSet_nodup (h w)
      · rw [if_neg hk]
        exact h k2

theorem buildOutgoing_nodup (deps : List (String × List String)) :
    ∀ k, ((buildOutgoing deps) k).Nodup := by
  have h : ∀ (L : List (String × List String)) (out : String → List String),
      (∀ k, (out k).Nodup) →
      ∀ k, ((L.foldl (fun out p =>
        p.2.foldl (fun out w => updateF out w (fun l => insertSet l p.1)) out) out) k).Nodup := by
    intro L
    induction L with
    | nil => intro out h k; exact h k
    | cons q rest ih =>
        intro out h k
        rw [List.foldl_cons]
        exact ih _ (innerFoldOut_nodup q.1 q.2 out h) k
  exact h deps _ (fun _ => List.nodup_nil)

theorem updateF_self (f : String → List String) (k : String)
    (g : List String → List String) : updateF f k g k = g (f k) := by
  unfold updateF
  simp

theorem updateF_ne (f : String → List String) {k m : String}
    (g : List String → List String) (h : m ≠ k) : updateF f k g m = f m := by
  unfold updateF
  have hbeq : (m == k) = false := by
    simp only [beq_eq_false_iff_ne, ne_eq]
    exact h
  rw [hbeq]
  simp

theorem removeElem_mem {l : List String} {x y : String} :
    y ∈ removeElem l x ↔ (y ∈ l ∧ y ≠ x) := by
  unfold removeElem
  simp

/-- Effect of the relaxation fold on the incoming map and the ready queue:
    `n` is removed from the incoming set of each listed target, and exactly
    the targets whose incoming set thereby empties join the (still sorted,
    duplicate-free) ready queue. -/
theorem relaxFold_spec (n : String) :
    ∀ (ms : List String), ms.Nodup →
    ∀ (inc : String → List String) (S : List String),
    S.Sorted strLe → S.Nodup →
    (∀ p ∈ S, inc p = []) →
    (∀ m ∈ ms, n ∈ inc m) →
    (∀ m, (ms.foldl (relaxStep n) (inc, S)).1 m =
        if m ∈ ms then removeElem (inc m) n else inc m) ∧
    (ms.foldl (relaxStep n) (inc, S)).2.Sorted strLe ∧
    (ms.foldl (relaxStep n) (inc, S)).2.Nodup ∧
    (∀ p, p ∈ (ms.foldl (relaxStep n) (inc, S)).2 ↔
        (p ∈ S ∨ (p ∈ ms ∧ removeElem (inc p) n = []))) := by
  intro ms
  induction ms with
  | nil =>
      intro _ inc S hs hn hSempty _
      refine ⟨fun m => by simp, hs, hn, fun p => by simp⟩
  | cons m0 rest ih =>
      intro hnodup inc S hs hn hSempty hminc
      rw [List.nodup_cons] at hnodup
      have hm0S : m0 ∉ S := by
        intro hin
        have h1 := hSempty m0 hin
        have h2 := hminc m0 (List.mem_cons_self m0 rest)
        rw [h1] at h2
        cases h2
      have hstep : relaxStep n (inc, S) m0 =
          (updateF inc m0 (fun l => removeElem l n),
           if (removeElem (inc m0) n).isEmpty then sortStr (S ++ [m0]) else S) := by
        unfold relaxStep
        dsimp only
        rw [updateF_self]
        by_cases hempty : (removeElem (inc m0) n).isEmpty = true
        · rw [if_pos hempty, if_pos hempty]
        · rw [if_neg hempty, if_neg hempty]
      rw [List.foldl_cons, hstep]
      set inc1 := updateF inc m0 (fun l => removeElem l n) with hinc1
      set S1 := if (removeElem (inc m0) n).isEmpty then sortStr (S ++ [m0]) else S
        with hS1
      have hinc1_m0 : inc1 m0 = removeElem (inc m0) n := updateF_self inc m0 _
      have hinc1_ne : ∀ m, m ≠ m0 → inc1 m = inc m := fun m hm => updateF_ne inc _ hm
      have hS1sorted : S1.Sorted strLe := by
        rw [hS1]
        by_cases hempty : (removeElem (inc m0) n).isEmpty = true
        · rw [if_pos hempty]
          exact sortStr_sorted _
        · rw [if_neg hempty]
          exact hs
      have hS1nodup : S1.Nodup := by
        rw [hS1]
        by_cases hempty : (removeElem (inc m0) n).isEmpty = true
        · rw [if_pos hempty]
          apply sortStr_nodup
          rw [List.nodup_append]
          exact ⟨hn, List.nodup_singleton m0,
            fun a ha hx => (List.mem_singleton.mp hx ▸ hm0S) ha⟩
        · rw [if_neg hempty]
          exact hn
      have hS1mem : ∀ p, p ∈ S1 ↔
          (p ∈ S ∨ (p = m0 ∧ removeElem (inc m0) n = [])) := by
        intro p
        rw [hS1]
        by_cases hempty : (removeElem (inc m0) n).isEmpty = true
        · rw [if_pos hempty, mem_sortStr, List.mem_append, List.mem_singleton]
          have he := List.isEmpty_iff.mp hempty
          tauto
        · rw [if_neg hempty]
          have he : ¬ (removeElem (inc m0) n = []) := by
            intro hx
            exact hempty (List.isEmpty_iff.mpr hx)
          tauto
      have hS1empty : ∀ p ∈ S1, inc1 p = [] := by
        intro p hp
        rcases (hS1mem p).mp hp with hpS | ⟨hpm0, hrem⟩
        · have hpne : p ≠ m0 := fun hx => hm0S (hx ▸ hpS)
          rw [hinc1_ne p hpne]
          exact hSempty p hpS
        · rw [hpm0, hinc1_m0]
          exact hrem
      have hrestinc : ∀ m ∈ rest, n ∈ inc1 m := by
        intro m hm
        have hne : m ≠ m0 := fun hx => hnodup.1 (hx ▸ hm)
        rw [hinc1_ne m hne]
        exact hminc m (List.mem_cons_of_mem m0 hm)
      obtain ⟨ih1, ih2, ih3, ih4⟩ := ih hnodup.2 inc1 S1 hS1sorted hS1nodup hS1empty hrestinc
      refine ⟨?_, ih2, ih3, ?_⟩
      · intro m
        rw [ih1 m]
        by_cases hm : m = m0
        · subst hm
          have hnotrest : m ∉ rest := hnodup.1
          rw [if_neg hnotrest, if_pos (List.mem_cons_self m rest), hinc1_m0]
        · by_cases hmr : m ∈ rest
          · rw [if_pos hmr, if_pos (List.mem_cons_of_mem m0 hmr), hinc1_ne m hm]
          · have hmc : m ∉ m0 :: rest := by
              intro hx
              rcases List.mem_cons.mp hx with h | h
              · exact hm h
              · exact hmr h
            rw [if_neg hmr, if_neg hmc, hinc1_ne m hm]
      · intro p
        rw [ih4 p, hS1mem p]
        constructor
        · rintro ((hpS | ⟨hpm0, hrem⟩) | ⟨hpr, hrem⟩)
          · exact Or.inl hpS
          · exact Or.inr ⟨hpm0 ▸ List.mem_cons_self m0 rest, hpm0 ▸ hrem⟩
          · have hpne : p ≠ m0 := fun hx => hnodup.1 (hx ▸ hpr)
            rw [hinc1_ne p hpne] at hrem
            exact Or.inr ⟨List.mem_cons_of_mem m0 hpr, hrem⟩
        · rintro (hpS | ⟨hpc, hrem⟩)
          · exact Or.inl (Or.inl hpS)
          · rcases List.mem_cons.mp hpc with hpm0 | hpr
            · exact Or.inl (Or.inr ⟨hpm0, hpm0 ▸ hrem⟩)
            · have hpne : p ≠ m0 := fun hx => hnodup.1 (hx ▸ hpr)
              rw [← hinc1_ne p hpne] at hrem
              exact Or.inr ⟨hpr, hrem⟩

theorem contains_iff_mem {l : List String} {a : String} :
    l.contains a = true ↔ a ∈ l :=
  ⟨mem_of_contains_eq_true, List.elem_eq_true_of_mem⟩

/-- The ready queue of the Kahn loop coincides, as a list, with the
    reference `readyNodes` whenever it is sorted, duplicate-free and holds
    exactly the ready set. -/
theorem ready_queue_eq (deps : List (String × List String))
    (inc : String → List String) (S order : List String)
    (hSsorted : S.Sorted strLe) (hSnodup : S.Nodup)
    (hinc : ∀ m x, x ∈ inc m ↔ (x ∈ depsGet deps m ∧ x ∉ order))
    (hSmem : ∀ p, p ∈ S ↔ (p ∈ topoNodes deps ∧ p ∉ order ∧ inc p = [])) :
    readyNodes deps (topoNodes deps) order = S := by
  apply sorted_nodup_eq (sortStr_sorted _) hSsorted
    (sortStr_nodup (List.Nodup.filter _ (topoNodes_nodup deps))) hSnodup
  intro x
  rw [mem_sortStr, List.mem_filter, hSmem x]
  constructor
  · rintro ⟨hx, hq⟩
    rw [Bool.and_eq_true] at hq
    obtain ⟨hq1, hq2⟩ := hq
    have hord : x ∉ order := by
      intro hmem
      rw [contains_iff_mem.mpr hmem] at hq1
      cases hq1
    refine ⟨hx, hord, ?_⟩
    rw [List.eq_nil_iff_forall_not_mem]
    intro b hb
    rw [hinc x b] at hb
    have := List.all_eq_true.mp hq2 b hb.1
    exact hb.2 (contains_iff_mem.mp this)
  · rintro ⟨hx, hord, hempty⟩
    refine ⟨hx, ?_⟩
    rw [Bool.and_eq_true]
    constructor
    · cases hc : order.contains x
      · rfl
      · exact absurd (contains_iff_mem.mp hc) hord
    · rw [List.all_eq_true]
      intro b hb
      by_cases hbord : b ∈ order
      · exact contains_iff_mem.mpr hbord
      · exfalso
        have : b ∈ inc x := (hinc x b).mpr ⟨hb, hbord⟩
        rw [hempty] at this
        cases this

/-- The Kahn phase loop of `topo_sort` agrees step-by-step with the greedy
    reference loop of `topoSortSpec`, and its growing order stays
    duplicate-free, inside the node set, and topologically sound. -/
theorem kahnLoop_eq_refLoop (deps : List (String × List String))
    (hnd : (deps.map Prod.fst).Nodup) :
    ∀ (fuel : Nat) (inc : String → List String) (S order : List String),
    order.Nodup →
    (∀ a ∈ order, a ∈ topoNodes deps) →
    (∀ m x, x ∈ inc m ↔ (x ∈ depsGet deps m ∧ x ∉ order)) →
    S.Sorted strLe →
    S.Nodup →
    (∀ p, p ∈ S ↔ (p ∈ topoNodes deps ∧ p ∉ order ∧ inc p = [])) →
    (∀ a ∈ order, ∀ b ∈ depsGet deps a,
      b ∈ order ∧ order.indexOf b < order.indexOf a) →
    kahnLoop (buildOutgoing deps) fuel inc S order =
      refLoop deps (topoNodes deps) fuel order ∧
    (∀ a ∈ kahnLoop (buildOutgoing deps) fuel inc S order, a ∈ topoNodes deps) ∧
    (kahnLoop (buildOutgoing deps) fuel inc S order).Nodup ∧
    (∀ a ∈ kahnLoop (buildOutgoing deps) fuel inc S order, ∀ b ∈ depsGet deps a,
      b ∈ kahnLoop (buildOutgoing deps) fuel inc S order ∧
      (kahnLoop (buildOutgoing deps) fuel inc S order).indexOf b <
        (kahnLoop (buildOutgoing deps) fuel inc S order).indexOf a) := by
  intro fuel
  induction fuel with
  | zero =>
      intro inc S order hordnd hordnodes hinc hSsorted hSnodup hSmem hsound
      exact ⟨rfl, hordnodes, hordnd, hsound⟩
  | succ fuel ih =>
      intro inc S order hordnd hordnodes hinc hSsorted hSnodup hSmem hsound
      have hready := ready_queue_eq deps inc S order hSsorted hSnodup hinc hSmem
      cases S with
      | nil =>
          have hkahn : kahnLoop (buildOutgoing deps) (fuel + 1) inc [] order = order := rfl
          have href : refLoop deps (topoNodes deps) (fuel + 1) order = order := by
            rw [refLoop, hready]
          rw [hkahn, href]
          exact ⟨rfl, hordnodes, hordnd, hsound⟩
      | cons n S' =>
          have hnS := (hSmem n).mp (List.mem_cons_self n S')
          obtain ⟨hn_nodes, hn_ord, hn_inc⟩ := hnS
          have hS'nodup := (List.nodup_cons.mp hSnodup).2
          have hnS' : n ∉ S' := (List.nodup_cons.mp hSnodup).1
          have hS'sorted : S'.Sorted strLe := (List.sorted_cons.mp hSsorted).2
          have hS'mem : ∀ p ∈ S', inc p = [] := by
            intro p hp
            exact ((hSmem p).mp (List.mem_cons_of_mem n hp)).2.2
          have hout_inc : ∀ m ∈ buildOutgoing deps n, n ∈ inc m := by
            intro m hm
            rw [buildOutgoing_mem_depsGet deps hnd] at hm
            exact (hinc m n).mpr ⟨hm, hn_ord⟩
          obtain ⟨hr1, hr2, hr3, hr4⟩ := relaxFold_spec n (buildOutgoing deps n)
            (buildOutgoing_nodup deps n) inc S' hS'sorted hS'nodup hS'mem hout_inc
          set st := (buildOutgoing deps n).foldl (relaxStep n) (inc, S') with hst
          have hkahn : kahnLoop (buildOutgoing deps) (fuel + 1) inc (n :: S') order =
              kahnLoop (buildOutgoing deps) fuel st.1 st.2 (order ++ [n]) := rfl
          have href : refLoop deps (topoNodes deps) (fuel + 1) order =
              refLoop deps (topoNodes deps) fuel (order ++ [n]) := by
            rw [refLoop, hready]
          -- invariants for the extended order
          have hordnd2 : (order ++ [n]).Nodup := by
            rw [List.nodup_append]
            exact ⟨hordnd, List.nodup_singleton n,
              fun a ha hx => (List.mem_singleton.mp hx ▸ hn_ord) ha⟩
          have hordnodes2 : ∀ a ∈ order ++ [n], a ∈ topoNodes deps := by
            intro a ha
            rcases List.mem_append.mp ha with h | h
            · exact hordnodes a h
            · exact (List.mem_singleton.mp h) ▸ hn_nodes
          have hinc2 : ∀ m x, x ∈ st.1 m ↔ (x ∈ depsGet deps m ∧ x ∉ order ++ [n]) := by
            intro m x
            rw [hr1 m]
            by_cases hm : m ∈ buildOutgoing deps n
            · have hmdep : n ∈ depsGet deps m :=
                (buildOutgoing_mem_depsGet deps hnd n m).mp hm
              rw [if_pos hm, removeElem_mem, hinc m x]
              simp only [List.mem_append, List.mem_singleton]
              constructor
              · rintro ⟨⟨h1, h2⟩, h3⟩
                exact ⟨h1, fun hx => hx.elim h2 h3⟩
              · rintro ⟨h1, h2⟩
                exact ⟨⟨h1, fun hx => h2 (Or.inl hx)⟩, fun hx => h2 (Or.inr hx)⟩
            · have hmdep : n ∉ depsGet deps m := by
                intro hx
                exact hm ((buildOutgoing_mem_depsGet deps hnd n m).mpr hx)
              rw [if_neg hm, hinc m x]
              simp only [List.mem_append, List.mem_singleton]
              constructor
              · rintro ⟨h1, h2⟩
                refine ⟨h1, fun hx => ?_⟩
                rcases hx with hx | hx
                · exact h2 hx
                · exact hmdep (hx ▸ h1)
              · rintro ⟨h1, h2⟩
                exact ⟨h1, fun hx => h2 (Or.inl hx)⟩
          have hSmem2 : ∀ p, p ∈ st.2 ↔
              (p ∈ topoNodes deps ∧ p ∉ order ++ [n] ∧ st.1 p = []) := by
            intro p
            rw [hr4 p]
            constructor
            · rintro (hp | ⟨hpo, hprem⟩)
              · have hpmem := (hSmem p).mp (List.mem_cons_of_mem n hp)
                have hpne : p ≠ n := fun hx => hnS' (hx ▸ hp)
                refine ⟨hpmem.1, ?_, ?_⟩
                · simp only [List.mem_append, List.mem_singleton]
                  rintro (hx | hx)
                  · exact hpmem.2.1 hx
                  · exact hpne hx
                · rw [hr1 p]
                  have hpnout : p ∉ buildOutgoing deps n := by
                    intro hx
                    have : n ∈ inc p := hout_inc p hx
                    rw [hpmem.2.2] at this
                    cases this
                  rw [if_neg hpnout]
                  exact hpmem.2.2
              · have hpdep : n ∈ depsGet deps p :=
                  (buildOutgoing_mem_depsGet deps hnd n p).mp hpo
                have hpnodes : p ∈ topoNodes deps := key_mem_topoNodes hpdep
                have hpord : p ∉ order := by
                  intro hx
                  have := (hsound p hx n hpdep).1
                  exact hn_ord this
                have hpne : p ≠ n := by
                  intro hx
                  subst hx
                  have : p ∈ inc p := (hinc p p).mpr ⟨hpdep, hpord⟩
                  rw [hn_inc] at this
                  cases this
                refine ⟨hpnodes, ?_, ?_⟩
                · simp only [List.mem_append, List.mem_singleton]
                  rintro (hx | hx)
                  · exact hpord hx
                  · exact hpne hx
                · rw [hr1 p, if_pos hpo]
                  exact hprem
            · rintro ⟨hpnodes, hpord2, hpinc⟩
              have hpord : p ∉ order := by
                intro hx
                exact hpord2 (List.mem_append.mpr (Or.inl hx))
              have hpne : p ≠ n := by
                intro hx
                exact hpord2 (List.mem_append.mpr (Or.inr (List.mem_singleton.mpr hx)))
              rw [hr1 p] at hpinc
              by_cases hpo : p ∈ buildOutgoing deps n
              · rw [if_pos hpo] at hpinc
                exact Or.inr ⟨hpo, hpinc⟩
              · rw [if_neg hpo] at hpinc
                have hpS : p ∈ n :: S' := (hSmem p).mpr ⟨hpnodes, hpord, hpinc⟩
                rcases List.mem_cons.mp hpS with hx | hx
                · exact absurd hx hpne
                · exact Or.inl hx
          have hsound2 : ∀ a ∈ order ++ [n], ∀ b ∈ depsGet deps a,
              b ∈ order ++ [n] ∧
              (order ++ [n]).indexOf b < (order ++ [n]).indexOf a := by
            intro a ha b hb
            rcases List.mem_append.mp ha with h | h
            · obtain ⟨hbord, hbidx⟩ := hsound a h b hb
              refine ⟨List.mem_append.mpr (Or.inl hbord), ?_⟩
              rw [indexOf_append_mem [n] hbord, indexOf_append_mem [n] h]
              exact hbidx
            · rw [List.mem_singleton] at h
              subst h
              have hbord : b ∈ order := by
                by_contra hbord
                have : b ∈ inc a := (hinc a b).mpr ⟨hb, hbord⟩
                rw [hn_inc] at this
                cases this
              refine ⟨List.mem_append.mpr (Or.inl hbord), ?_⟩
              rw [indexOf_append_mem [a] hbord, indexOf_append_not_mem [a] hn_ord]
              have h1 : order.indexOf b < order.length := List.indexOf_lt_length.mpr hbord
              omega
          obtain ⟨e1, e2, e3, e4⟩ := ih st.1 st.2 (order ++ [n]) hordnd2 hordnodes2
            hinc2 hr2 hr3 hSmem2 hsound2
          rw [hkahn, href]
          exact ⟨e1, e2, e3, e4⟩

/-- The Kahn phase of `topo_sort` equals the greedy reference loop, is
    duplicate-free, lies inside the node set, and is topologically sound. -/
theorem kahnOrder_spec (deps : List (String × List String))
    (hnd : (deps.map Prod.fst).Nodup) :
    kahnOrder deps = refLoop deps (topoNodes deps) (topoNodes deps).length [] ∧
    (∀ a ∈ kahnOrder deps, a ∈ topoNodes deps) ∧
    (kahnOrder deps).Nodup ∧
    (∀ a ∈ kahnOrder deps, ∀ b ∈ depsGet deps a,
      b ∈ kahnOrder deps ∧
      (kahnOrder deps).indexOf b < (kahnOrder deps).indexOf a) := by
  have hk : kahnOrder deps =
      kahnLoop (buildOutgoing deps) (topoNodes deps).length (buildIncoming deps)
        (sortStr ((topoNodes deps).filter (fun n => (buildIncoming deps n).isEmpty)))
        [] := rfl
  rw [hk]
  apply kahnLoop_eq_refLoop deps hnd
  · exact List.nodup_nil
  · intro a ha
    cases ha
  · intro m x
    rw [buildIncoming_mem_depsGet deps hnd]
    simp
  · exact sortStr_sorted _
  · exact sortStr_nodup (List.Nodup.filter _ (topoNodes_nodup deps))
  · intro p
    rw [mem_sortStr, List.mem_filter]
    constructor
    · rintro ⟨h1, h2⟩
      exact ⟨h1, by simp, List.isEmpty_iff.mp h2⟩
    · rintro ⟨h1, -, h3⟩
      exact ⟨h1, List.isEmpty_iff.mpr h3⟩
  · intro a ha
    cases ha

/-- Dependency map and expected order of the C1 counterexample: A depends
    on Z, and Z sits on the two-cycle Z ↔ C. -/
def cexDeps : List (String × List String) :=
  [("A", ["Z"]), ("Z", ["C"]), ("C", ["Z"])]

/-- C1 counterexample: A depends on Z and no dependency cycle exists
    between A and Z (Z does not transitively depend on A), yet A precedes Z
    in `topo_sort`'s output — Z is blocked behind the Z↔C cycle, and the
    fallback appends every unresolved node (not only cycle members, but
    also nodes such as Z... here Z itself is a cycle member while A is
    cycle-free yet unresolved) in lexical order, placing the dependent "A"
    first. -/
theorem topo_sort_soundness_counterexample :
    "Z" ∈ depsGet cexDeps "A" ∧
    reaches cexDeps "Z" "A" = false ∧
    topo_sort cexDeps = ["A", "C", "Z"] ∧
    ¬ (topo_sort cexDeps).indexOf "Z" < (topo_sort cexDeps).indexOf "A" := by
  decide

/-- C1 (amended): with the unique keys of a Python dict, `topo_sort` equals
    the reference order `topoSortSpec` modelled from the spec wording —
    repeatedly emit the lexically least node all of whose dependencies are
    already emitted, then append the unresolved (cycle-blocked) nodes in
    lexical order — so the order is a deterministic function of the
    dependency map; and for every pair (A, B) with A depending on B,
    whenever B is resolved during the Kahn phase, B's position precedes
    A's.  (When B itself is left unresolved behind a cycle, the ordering
    guarantee genuinely fails, as the counterexample shows.) -/
theorem topo_sort_correct (deps : List (String × List String))
    (hnd : (deps.map Prod.fst).Nodup) :
    topo_sort deps = topoSortSpec deps ∧
    (∀ A B, B ∈ depsGet deps A → B ∈ kahnOrder deps →
      (topo_sort deps).indexOf B < (topo_sort deps).indexOf A) := by
  obtain ⟨heq, hsub, hnodup, hsound⟩ := kahnOrder_spec deps hnd
  have ht : topo_sort deps = kahnOrder deps ++
      sortStr ((topoNodes deps).filter (fun n => !((kahnOrder deps).contains n))) := rfl
  have hs : topoSortSpec deps =
      refLoop deps (topoNodes deps) (topoNodes deps).length [] ++
      sortStr ((topoNodes deps).filter
        (fun n => !((refLoop deps (topoNodes deps) (topoNodes deps).length []).contains n))) :=
    rfl
  constructor
  · rw [ht, hs, ← heq]
  · intro A B hdep hBk
    rw [ht]
    by_cases hA : A ∈ kahnOrder deps
    · obtain ⟨hBin, hidx⟩ := hsound A hA B hdep
      rw [indexOf_append_mem _ hBin, indexOf_append_mem _ hA]
      exact hidx
    · have hBidx : (kahnOrder deps).indexOf B < (kahnOrder deps).length :=
        List.indexOf_lt_length.mpr hBk
      rw [indexOf_append_mem _ hBk, indexOf_append_not_mem _ hA]
      omega

/-- Witness for C1 at a concrete two-entity acyclic map. -/
theorem topo_sort_correct_witness :
    topo_sort [("LOCATIONS", ["CLUSTERS"]), ("CLUSTERS", [])] =
      topoSortSpec [("LOCATIONS", ["CLUSTERS"]), ("CLUSTERS", [])] ∧
    (topo_sort [("LOCATIONS", ["CLUSTERS"]), ("CLUSTERS", [])]).indexOf "CLUSTERS" <
      (topo_sort [("LOCATIONS", ["CLUSTERS"]), ("CLUSTERS", [])]).indexOf "LOCATIONS" :=
  ⟨(topo_sort_correct [("LOCATIONS", ["CLUSTERS"]), ("CLUSTERS", [])] (by decide)).1,
   (topo_sort_correct [("LOCATIONS", ["CLUSTERS"]), ("CLUSTERS", [])] (by decide)).2
     "LOCATIONS" "CLUSTERS" (by decide) (by decide)⟩

end Pulse
